import Mathlib

/-!
Verification development for the ThinkPod document ingestion and retrieval
pipeline.  The definitions below are shallow embeddings of the TypeScript
sources:

* TextChunker               (packages/api/src/utils/textChunking.ts)
* EmbeddingService          (appended to packages/api/package.json)
* VectorSearchService       (src/unnamed/part_004)
* DocumentService           (packages/api/src/services/DocumentService.ts)

Strings are modelled as List Char; machine numbers as Nat / Int / Rat.
External collaborators (file hashing, the text extractor, the embedding
provider, wall-clock time) are parameters of the model.
-/

namespace ThinkPod

/-- Characters matched by the JavaScript regex class for whitespace
(space, tab, newline, carriage return, vertical tab, form feed). -/
def jsWs (c : Char) : Bool :=
  c == ' ' || c == '\t' || c == '\n' || c == '\r' || c == Char.ofNat 11 || c == Char.ofNat 12

/-- Model of JavaScript String.prototype.trim on a character list. -/
def jsTrim (l : List Char) : List Char :=
  ((l.dropWhile jsWs).reverse.dropWhile jsWs).reverse

/-- Uppercase latin letter test, the regex class A to Z. -/
def isUpperB (c : Char) : Bool := 'A' ≤ c && c ≤ 'Z'

/-- Latin letter test, the regex class a to z and A to Z. -/
def isAlphaB (c : Char) : Bool := ('a' ≤ c && c ≤ 'z') || ('A' ≤ c && c ≤ 'Z')

/-- First index at which the predicate holds. -/
def firstIdxGo (p : Char → Bool) : List Char → ℕ → Option ℕ
  | [], _ => none
  | c :: rest, i => if p c then some i else firstIdxGo p rest (i + 1)

def firstIdx (p : Char → Bool) (l : List Char) : Option ℕ := firstIdxGo p l 0

/-- Model of JavaScript String.prototype.indexOf for a substring: first
position at which the needle occurs, none when absent. -/
def indexOfSubGo (needle : List Char) : List Char → ℕ → Option ℕ
  | [], i => if needle.isEmpty then some i else none
  | c :: rest, i =>
      if needle.isPrefixOf (c :: rest) then some i else indexOfSubGo needle rest (i + 1)

def indexOfSub (hay needle : List Char) : Option ℕ := indexOfSubGo needle hay 0

/-- Model of JavaScript String.prototype.lastIndexOf with a fromIndex: the
largest start position not exceeding fromIndex at which the needle occurs. -/
def lastIndexOfFrom (hay needle : List Char) (fromIndex : ℕ) : Option ℕ :=
  (List.range (fromIndex + 1)).foldl
    (fun acc p => if needle.isPrefixOf (hay.drop p) then some p else acc) none

/-- Replace CRLF pairs by LF, the first normalisation pass of preprocessText. -/
def replaceCRLF : List Char → List Char
  | [] => []
  | '\r' :: '\n' :: rest => '\n' :: replaceCRLF rest
  | c :: rest => c :: replaceCRLF rest

/-- Replace lone CR by LF, the second normalisation pass of preprocessText. -/
def replaceCR : List Char → List Char
  | [] => []
  | '\r' :: rest => '\n' :: replaceCR rest
  | c :: rest => c :: replaceCR rest

/-- Collapse each run of spaces and tabs into a single space, the third pass
of preprocessText (regex over space and tab, one or more, to one space). -/
def collapseSpaceTab : Bool → List Char → List Char
  | _, [] => []
  | inRun, c :: rest =>
      if c == ' ' || c == '\t' then
        if inRun then collapseSpaceTab true rest else ' ' :: collapseSpaceTab true rest
      else c :: collapseSpaceTab false rest

/-- Emit a pending run of newlines, collapsing runs of three or more into
exactly two, as the fourth pass of preprocessText does. -/
def emitNewlines (k : ℕ) : List Char :=
  if 3 ≤ k then ['\n', '\n'] else List.replicate k '\n'

def collapseNewlines : ℕ → List Char → List Char
  | k, [] => emitNewlines k
  | k, '\n' :: rest => collapseNewlines (k + 1) rest
  | k, c :: rest => emitNewlines k ++ c :: collapseNewlines 0 rest

/-- Model of TextChunker.preprocessText: normalise line endings, collapse
space and tab runs, collapse runs of three or more newlines, then trim. -/
def preprocessText (text : List Char) : List Char :=
  jsTrim (collapseNewlines 0 (collapseSpaceTab false (replaceCR (replaceCRLF text))))

/-- Index of the last newline within a character list, if any. -/
def lastNewlineIdxGo : List Char → ℕ → Option ℕ → Option ℕ
  | [], _, acc => acc
  | c :: rest, i, acc =>
      lastNewlineIdxGo rest (i + 1) (if c == '\n' then some i else acc)

def lastNewlineIdx (l : List Char) : Option ℕ := lastNewlineIdxGo l 0 none

/-- Splitting on the JavaScript regex newline, whitespace star, newline: a
match starts at a newline whose following maximal whitespace run contains a
further newline, and ends at the last newline of that run (greedy star with
backtracking for the final newline).  Fuel decreases on every step; the
initial fuel of length plus one is enough since every step consumes at least
one character. -/
def splitBlankGo : ℕ → List Char → List Char → List (List Char)
  | 0, acc, _ => [acc.reverse]
  | _ + 1, acc, [] => [acc.reverse]
  | fuel + 1, acc, c :: rest =>
      if c == '\n' then
        let wsRun := rest.takeWhile jsWs
        match lastNewlineIdx wsRun with
        | some k => acc.reverse :: splitBlankGo fuel [] (rest.drop (k + 1))
        | none => splitBlankGo fuel (c :: acc) rest
      else splitBlankGo fuel (c :: acc) rest

/-- Model of text.split on the blank-line regex followed by the filter that
keeps only paragraphs with non-blank content. -/
def splitParagraphs (text : List Char) : List (List Char) :=
  (splitBlankGo (text.length + 1) [] text).filter (fun p => 0 < (jsTrim p).length)

inductive ChunkType
  | paragraph
  | sentence
  | arbitrary
deriving DecidableEq, Repr

structure ChunkMetadata where
  word_count : ℕ
  character_count : ℕ
  paragraph_index : Option ℤ
  chunk_type : ChunkType
deriving DecidableEq, Repr

structure TextChunk where
  content : List Char
  chunk_index : ℕ
  start_position : ℕ
  end_position : ℕ
  content_tokens : ℕ
  metadata : ChunkMetadata
deriving DecidableEq, Repr

/-- Caller-facing chunking options; a missing field means the corresponding
default applies, exactly as the object spread over defaultOptions does. -/
structure ChunkOptions where
  maxChunkSize : Option ℕ := none
  chunkOverlap : Option ℕ := none
  preserveSentences : Option Bool := none
  preserveParagraphs : Option Bool := none
  minChunkSize : Option ℕ := none
  separators : Option (List (List Char)) := none
deriving DecidableEq, Repr

structure ResolvedChunkOptions where
  maxChunkSize : ℕ
  chunkOverlap : ℕ
  preserveSentences : Bool
  preserveParagraphs : Bool
  minChunkSize : ℕ
  separators : List (List Char)
deriving DecidableEq, Repr

def defaultSeparators : List (List Char) :=
  [['\n', '\n'], ['\n'], ['.', ' '], ['!', ' '], ['?', ' '], [';', ' '], [',', ' '], [' ']]

/-- The defaultOptions object of TextChunker merged with the caller options. -/
def resolveOptions (o : ChunkOptions) : ResolvedChunkOptions where
  maxChunkSize := o.maxChunkSize.getD 1000
  chunkOverlap := o.chunkOverlap.getD 100
  preserveSentences := o.preserveSentences.getD true
  preserveParagraphs := o.preserveParagraphs.getD true
  minChunkSize := o.minChunkSize.getD 100
  separators := o.separators.getD defaultSeparators

/-- Model of TextChunker.countWords: the number of maximal runs of
non-whitespace characters. -/
def countWordsGo : Bool → List Char → ℕ
  | _, [] => 0
  | inWord, c :: rest =>
      if jsWs c then countWordsGo false rest
      else (if inWord then 0 else 1) + countWordsGo true rest

def countWords (l : List Char) : ℕ := countWordsGo false l

/-- Model of TextChunker.estimateTokens: ceiling of length over four. -/
def estimateTokens (l : List Char) : ℕ := (l.length + 3) / 4

/-- Model of TextChunker.createChunk. -/
def createChunk (content : List Char) (index start stop : ℕ) (ty : ChunkType)
    (pIdx : Option ℤ) : TextChunk where
  content := content
  chunk_index := index
  start_position := start
  end_position := stop
  content_tokens := 0
  metadata :=
    { word_count := countWords content
      character_count := content.length
      paragraph_index := pIdx
      chunk_type := ty }

/-- First index where a sentence-ending punctuation character is followed by a
whitespace character, the regex search inside getOverlapText. -/
def searchPunctWsGo : List Char → ℕ → Option ℕ
  | c1 :: c2 :: rest, i =>
      if (c1 == '.' || c1 == '!' || c1 == '?') && jsWs c2 then some i
      else searchPunctWsGo (c2 :: rest) (i + 1)
  | _, _ => none

def searchPunctWs (l : List Char) : Option ℕ := searchPunctWsGo l 0

/-- Model of TextChunker.getOverlapText. -/
def getOverlapText (text : List Char) (overlapSize : ℕ) : List Char :=
  if text.length ≤ overlapSize then text
  else
    let overlap := text.drop (text.length - overlapSize)
    let fallback :=
      match firstIdx (· == ' ') overlap with
      | some j => overlap.drop (j + 1)
      | none => overlap
    match searchPunctWs overlap with
    | some s => if 2 * s < overlapSize then overlap.drop (s + 2) else fallback
    | none => fallback

/-- Model of TextChunker.findTextPosition: position of the first at most
fifty characters of the search text inside the full text, zero if absent. -/
def findTextPosition (fullText searchText : List Char) : ℕ :=
  (indexOfSub fullText (searchText.take 50)).getD 0

/-- Model of TextChunker.findBestBreakpoint: walk the separator list in order
and return one past the last occurrence at or before maxEnd when that
occurrence starts after the chunk start. -/
def findBestBreakpoint (text : List Char) (start maxEnd : ℕ) :
    List (List Char) → ℕ
  | [] => maxEnd
  | sep :: rest =>
      match lastIndexOfFrom text sep maxEnd with
      | some li => if start < li then li + sep.length else findBestBreakpoint text start maxEnd rest
      | none => findBestBreakpoint text start maxEnd rest

structure BuildState where
  chunks : List TextChunk
  current : List Char
  currentStart : ℕ
  paragraphIndex : ℕ
deriving DecidableEq, Repr

/-- One iteration of the paragraph loop of TextChunker.chunkByParagraphs. -/
def paraStep (text : List Char) (o : ResolvedChunkOptions) (st : BuildState)
    (para : List Char) : BuildState :=
  let t := jsTrim para
  if 0 < st.current.length ∧ o.maxChunkSize < st.current.length + t.length + 2 then
    let newChunk := createChunk (jsTrim st.current) st.chunks.length st.currentStart
      (st.currentStart + st.current.length) .paragraph (some ((st.paragraphIndex : ℤ) - 1))
    let overlap := getOverlapText st.current o.chunkOverlap
    let current' := if 0 < overlap.length then overlap ++ ['\n', '\n'] ++ t else t
    ⟨st.chunks ++ [newChunk], current', findTextPosition text t, st.paragraphIndex + 1⟩
  else if 0 < st.current.length then
    ⟨st.chunks, st.current ++ ['\n', '\n'] ++ t, st.currentStart, st.paragraphIndex + 1⟩
  else
    ⟨st.chunks, t, findTextPosition text t, st.paragraphIndex + 1⟩

/-- Model of TextChunker.chunkByParagraphs. -/
def chunkByParagraphs (text : List Char) (o : ResolvedChunkOptions) : List TextChunk :=
  let st := (splitParagraphs text).foldl (paraStep text o) ⟨[], [], 0, 0⟩
  if o.minChunkSize ≤ (jsTrim st.current).length then
    st.chunks ++ [createChunk (jsTrim st.current) st.chunks.length st.currentStart
      (st.currentStart + st.current.length) .paragraph (some ((st.paragraphIndex : ℤ) - 1))]
  else st.chunks

/-- The abbreviation set used by the sentence splitter. -/
def abbreviations : List (List Char) :=
  ["Dr", "Mr", "Mrs", "Ms", "Prof", "Sr", "Jr", "vs", "etc", "Inc", "Ltd", "Corp"].map
    String.toList

/-- Scan forward from an index to the next non-whitespace position. -/
def nextNonSpaceGo (cs : List Char) : ℕ → ℕ → ℕ
  | 0, i => i
  | fuel + 1, i =>
      match cs.get? i with
      | some c => if jsWs c then nextNonSpaceGo cs fuel (i + 1) else i
      | none => i

/-- Backward scan used by getWordBefore.  Indices are shifted up by one so
that zero stands for the JavaScript index minus one. -/
def skipBack (pred : Char → Bool) (cs : List Char) : ℕ → ℕ
  | 0 => 0
  | s + 1 =>
      match cs.get? s with
      | some c => if pred c then skipBack pred cs s else s + 1
      | none => s + 1

/-- Model of TextChunker.getWordBefore. -/
def getWordBefore (cs : List Char) (position : ℕ) : List Char :=
  let s := skipBack jsWs cs position
  let w := skipBack isAlphaB cs s
  (cs.drop w).take (s - w)

/-- Model of TextChunker.isSentenceEnd. -/
def isSentenceEnd (cs : List Char) (position : ℕ) : Bool :=
  let n := nextNonSpaceGo cs (cs.length + 1) (position + 1)
  if cs.length ≤ n then true
  else
    match cs.get? n with
    | some c =>
        if ¬ isUpperB c then false
        else if getWordBefore cs position ∈ abbreviations then false
        else true
    | none => true

/-- Main loop of TextChunker.splitIntoSentences. -/
def splitSentencesGo (cs : List Char) : ℕ → ℕ → List Char → List (List Char)
  | 0, _, current => if 0 < (jsTrim current).length then [jsTrim current] else []
  | fuel + 1, i, current =>
      match cs.get? i with
      | none => if 0 < (jsTrim current).length then [jsTrim current] else []
      | some c =>
          let current' := current ++ [c]
          if (c == '.' || c == '!' || c == '?') && isSentenceEnd cs i then
            jsTrim current' :: splitSentencesGo cs fuel (i + 1) []
          else splitSentencesGo cs fuel (i + 1) current'

/-- Model of TextChunker.splitIntoSentences. -/
def splitIntoSentences (cs : List Char) : List (List Char) :=
  (splitSentencesGo cs (cs.length + 1) 0 []).filter (fun s => 0 < s.length)

/-- One iteration of the sentence loop of TextChunker.chunkBySentences. -/
def sentenceStep (text : List Char) (o : ResolvedChunkOptions) (st : BuildState)
    (sentence : List Char) : BuildState :=
  let t := jsTrim sentence
  if 0 < st.current.length ∧ o.maxChunkSize < st.current.length + t.length + 1 then
    let newChunk := createChunk (jsTrim st.current) st.chunks.length st.currentStart
      (st.currentStart + st.current.length) .sentence none
    let overlap := getOverlapText st.current o.chunkOverlap
    let current' := if 0 < overlap.length then overlap ++ [' '] ++ t else t
    ⟨st.chunks ++ [newChunk], current', findTextPosition text t, st.paragraphIndex⟩
  else if 0 < st.current.length then
    ⟨st.chunks, st.current ++ [' '] ++ t, st.currentStart, st.paragraphIndex⟩
  else
    ⟨st.chunks, t, findTextPosition text t, st.paragraphIndex⟩

/-- Model of TextChunker.chunkBySentences. -/
def chunkBySentences (text : List Char) (o : ResolvedChunkOptions) : List TextChunk :=
  let st := (splitIntoSentences text).foldl (sentenceStep text o) ⟨[], [], 0, 0⟩
  if o.minChunkSize ≤ (jsTrim st.current).length then
    st.chunks ++ [createChunk (jsTrim st.current) st.chunks.length st.currentStart
      (st.currentStart + st.current.length) .sentence none]
  else st.chunks

/-- Model of the while loop of TextChunker.chunkBySize.  Position strictly
increases on each iteration, so fuel of length plus one suffices. -/
def chunkBySizeGo (text : List Char) (o : ResolvedChunkOptions) :
    ℕ → ℕ → ℕ → List TextChunk
  | 0, _, _ => []
  | fuel + 1, pos, count =>
      if pos < text.length then
        let chunkEnd0 := min (pos + o.maxChunkSize) text.length
        let chunkEnd :=
          if chunkEnd0 < text.length then
            let boundary := findBestBreakpoint text pos chunkEnd0 o.separators
            if pos + o.minChunkSize < boundary then boundary else chunkEnd0
          else chunkEnd0
        let content := jsTrim ((text.drop pos).take (chunkEnd - pos))
        let newPos := max (chunkEnd - o.chunkOverlap) (pos + 1)
        if o.minChunkSize ≤ content.length then
          createChunk content count pos chunkEnd .arbitrary none ::
            chunkBySizeGo text o fuel newPos (count + 1)
        else chunkBySizeGo text o fuel newPos count
      else []

/-- Model of TextChunker.chunkBySize. -/
def chunkBySize (text : List Char) (o : ResolvedChunkOptions) : List TextChunk :=
  chunkBySizeGo text o (text.length + 1) 0 0

/-- Structural map with index used to re-number chunks. -/
def mapWithIndexGo (f : ℕ → α → β) : ℕ → List α → List β
  | _, [] => []
  | i, a :: as => f i a :: mapWithIndexGo f (i + 1) as

def mapWithIndex (f : ℕ → α → β) (l : List α) : List β := mapWithIndexGo f 0 l

/-- Model of TextChunker.postProcessChunks: drop chunks whose trimmed content
is below the minimum size, then renumber and trim the survivors. -/
def postProcessChunks (chunks : List TextChunk) (o : ResolvedChunkOptions) :
    List TextChunk :=
  mapWithIndex (fun i ch => { ch with chunk_index := i, content := jsTrim ch.content })
    (chunks.filter (fun ch => o.minChunkSize ≤ (jsTrim ch.content).length))

/-- Model of TextChunker.chunkText: resolve options, return nothing on blank
input, pick a strategy, post-process, then assign final indices and token
estimates. -/
def chunkText (text : List Char) (options : ChunkOptions) : List TextChunk :=
  let opts := resolveOptions options
  if (jsTrim text).length = 0 then []
  else
    let cleanedText := preprocessText text
    let chunks :=
      if opts.preserveParagraphs then chunkByParagraphs cleanedText opts
      else if opts.preserveSentences then chunkBySentences cleanedText opts
      else chunkBySize cleanedText opts
    mapWithIndex (fun i ch => { ch with chunk_index := i, content_tokens := estimateTokens ch.content })
      (postProcessChunks chunks opts)

/-! ## EmbeddingService (appended to packages/api/package.json) -/

structure EmbeddingResult where
  embedding : List ℚ
  tokens : ℕ
  index : ℕ
deriving DecidableEq

structure BatchEmbeddingResult where
  embeddings : List EmbeddingResult
  totalTokens : ℕ
  cost : ℚ
deriving DecidableEq

structure EmbeddingOptions where
  batchSize : Option ℕ := none
  model : Option String := none
  retryAttempts : Option ℕ := none
  retryDelay : Option ℕ := none

structure ChunkIn where
  content : List Char
  chunk_index : ℕ
deriving DecidableEq

/-- What one provider call returns on success: one vector per input plus the
total token usage reported for the batch. -/
structure ProviderResponse where
  data : List (List ℚ)
  total_tokens : ℕ
deriving DecidableEq

/-- The embedding provider as seen by the service: a call takes the model
name, the global call number and the prepared inputs, and either returns a
response or fails.  The call number stands for the provider state that makes
one call succeed and another fail. -/
def Provider : Type := String → ℕ → List (List Char) → Except String ProviderResponse

def maxBatchSize : ℕ := 100

def maxInputLength : ℕ := 8191

/-- Cost per token, a single constant for text-embedding-ada-002. -/
def costPerToken : ℚ := 1 / 10000000

/-- Model of EmbeddingService.calculateCost. -/
def calculateCost (tokens : ℕ) : ℚ := tokens * costPerToken

/-- Model of EmbeddingService.validateAndTruncateText: error on blank input,
else trim, truncating first when the estimated token count exceeds the
provider input limit. -/
def validateAndTruncateText (text : List Char) : Except String (List Char) :=
  if (jsTrim text).length = 0 then .error "Text content cannot be empty"
  else
    let estimatedTokens := (text.length + 3) / 4
    if estimatedTokens ≤ maxInputLength then .ok (jsTrim text)
    else .ok (jsTrim (text.take (maxInputLength * 4)))

/-- Model of EmbeddingService.validateChunks: drop blank chunks, then apply
the truncation rule to the rest (on which it cannot fail). -/
def validateChunks (chunks : List ChunkIn) : List ChunkIn :=
  (chunks.filter (fun ch => 0 < (jsTrim ch.content).length)).map
    (fun ch =>
      { content := ((validateAndTruncateText ch.content).toOption).getD ch.content
        chunk_index := ch.chunk_index })

/-- Rounded tokens-per-chunk figure attached to each embedding, the
JavaScript Math.round of total tokens over chunk count. -/
def roundDiv (total n : ℕ) : ℕ := (2 * total + n) / (2 * n)

/-- Build the per-chunk embedding records from one provider response, pairing
response vectors with chunk indices positionally. -/
def mkEmbeddings (resp : ProviderResponse) (chunks : List ChunkIn) : List EmbeddingResult :=
  List.zipWith
    (fun vec ch =>
      { embedding := vec
        tokens := roundDiv resp.total_tokens chunks.length
        index := ch.chunk_index })
    resp.data chunks

/-- One attempt of EmbeddingService.processBatch: validation of the inputs
happens inside the try block, so a validation error counts as a failed
attempt without a provider call; otherwise the provider is called once.
Returns the outcome and the next call number. -/
def attemptBody (chunks : List ChunkIn) (model : String) (p : Provider) (c : ℕ) :
    Except String (List EmbeddingResult × ℕ) × ℕ :=
  match chunks.mapM (fun ch => validateAndTruncateText ch.content) with
  | .error e => (.error e, c)
  | .ok inputs =>
      match p model c inputs with
      | .ok resp => (.ok (mkEmbeddings resp chunks, resp.total_tokens), c + 1)
      | .error e => (.error e, c + 1)

/-- The retry loop of EmbeddingService.processBatch.  The first argument is
the number of attempts still allowed; the last is the current attempt number
(starting at one).  The third component of the result collects the delays
slept between attempts, each retryDelay times the attempt number just
failed.  With zero attempts the loop body never runs and the null last error
is thrown. -/
def processBatchLoop (chunks : List ChunkIn) (model : String) (rd : ℕ) (p : Provider) :
    ℕ → ℕ → ℕ → Except String (List EmbeddingResult × ℕ) × ℕ × List ℕ
  | 0, c, _ => (.error "null", c, [])
  | remaining + 1, c, attempt =>
      match attemptBody chunks model p c with
      | (.ok out, c') => (.ok out, c', [])
      | (.error e, c') =>
          if remaining = 0 then (.error e, c', [])
          else
            let rec' := processBatchLoop chunks model rd p remaining c' (attempt + 1)
            (rec'.1, rec'.2.1, rd * attempt :: rec'.2.2)

/-- Model of EmbeddingService.processBatch. -/
def processBatch (chunks : List ChunkIn) (model : String) (retryAttempts rd : ℕ)
    (p : Provider) (c : ℕ) : Except String (List EmbeddingResult × ℕ) × ℕ × List ℕ :=
  processBatchLoop chunks model rd p retryAttempts c 1

/-- The batching loop of EmbeddingService.generateEmbeddings: slices of at
most bs chunks are embedded sequentially, stopping at the first batch whose
retries are exhausted.  The inter-batch pause of one hundred milliseconds is
recorded in the delay trace.  A batch size of zero would loop forever in the
source, so the model returns an error for it; every caller in the source
uses a positive batch size. -/
def genLoop (bs : ℕ) (model : String) (ra rd : ℕ) (p : Provider) :
    ℕ → List ChunkIn → ℕ → Except String (List EmbeddingResult × ℕ) × ℕ × List ℕ
  | _, [], c => (.ok ([], 0), c, [])
  | 0, _ :: _, c => (.error "nonterminating", c, [])
  | fuel + 1, valid@(_ :: _), c =>
      if bs = 0 then (.error "nonterminating", c, [])
      else
        let batch := valid.take bs
        let rest := valid.drop bs
        match processBatch batch model ra rd p c with
        | (.error e, c', ds) => (.error e, c', ds)
        | (.ok (embs, toks), c', ds) =>
            let pause : List ℕ := if rest.isEmpty then [] else [100]
            let r := genLoop bs model ra rd p fuel rest c'
            match r.1 with
            | .error e => (.error e, r.2.1, ds ++ pause ++ r.2.2)
            | .ok (embs', toks') => (.ok (embs ++ embs', toks + toks'), r.2.1, ds ++ pause ++ r.2.2)

/-- Model of EmbeddingService.generateEmbeddings.  Returns the outcome, the
next provider call number and the trace of delays slept. -/
def generateEmbeddings (chunks : List ChunkIn) (options : EmbeddingOptions)
    (p : Provider) (c : ℕ) : Except String BatchEmbeddingResult × ℕ × List ℕ :=
  let batchSize := options.batchSize.getD 50
  let model := options.model.getD "text-embedding-ada-002"
  let retryAttempts := options.retryAttempts.getD 3
  let retryDelay := options.retryDelay.getD 1000
  let actualBatchSize := min batchSize maxBatchSize
  let validChunks := validateChunks chunks
  if validChunks.length = 0 then
    (.error "No valid chunks provided for embedding generation", c, [])
  else
    match genLoop actualBatchSize model retryAttempts retryDelay p validChunks.length validChunks c with
    | (.error e, c', ds) => (.error ("Embedding generation failed: " ++ e), c', ds)
    | (.ok (embs, toks), c', ds) =>
        (.ok { embeddings := embs, totalTokens := toks, cost := calculateCost toks }, c', ds)

/-- Model of EmbeddingService.getAvailableModels. -/
def getAvailableModels : List String :=
  ["text-embedding-ada-002", "text-embedding-3-small", "text-embedding-3-large"]

/-- Model of EmbeddingService.estimateCost: the token heuristic summed over
the chunks and the same fixed per-token rate, with no provider call. -/
def estimateCost (chunks : List (List Char)) : ℕ × ℚ :=
  let estimatedTokens := chunks.foldl (fun total content => total + (content.length + 3) / 4) 0
  (estimatedTokens, calculateCost estimatedTokens)

/-! ## Persistence model: the documents and document_chunks tables -/

inductive ProcessingStatus
  | pending
  | processing
  | completed
  | failed
deriving DecidableEq, Repr

structure Doc where
  id : ℕ
  user_id : ℕ
  title : List Char
  filename : List Char
  file_path : List Char
  file_type : List Char
  file_size : ℕ
  content_hash : ℕ
  processing_status : ProcessingStatus
  chunk_count : ℕ
deriving DecidableEq, Repr

structure ChunkRow where
  id : ℕ
  document_id : ℕ
  chunk_index : ℕ
  content : List Char
  content_tokens : ℕ
  embedding : Option (List ℚ)
  metadata : Option ChunkMetadata
  created_at : ℕ
deriving DecidableEq

structure DB where
  documents : List Doc
  chunks : List ChunkRow
  nextDocId : ℕ
  nextChunkId : ℕ
deriving DecidableEq

/-- Stable insertion used to model an ORDER BY clause: an element is placed
before the first list element it compares at or below, so equal keys keep
the order of the underlying query. -/
def insertSorted (le : α → α → Bool) (x : α) : List α → List α
  | [] => [x]
  | b :: bs => if le x b then x :: b :: bs else b :: insertSorted le x bs

/-- Stable sort (insertion sort) used to model an ORDER BY clause. -/
def sortByB (le : α → α → Bool) : List α → List α
  | [] => []
  | x :: xs => insertSorted le x (sortByB le xs)

/-! ## VectorSearchService (src/unnamed/part_004) -/

structure SearchOptions where
  limit : Option ℕ := none
  similarity_threshold : Option ℚ := none
  include_metadata : Option Bool := none
  filter_document_ids : Option (List ℕ) := none
  exclude_document_ids : Option (List ℕ) := none

structure HybridSearchOptions extends SearchOptions where
  keyword_weight : Option ℚ := none
  semantic_weight : Option ℚ := none
  keyword_boost : Option ℚ := none

structure SearchResult where
  chunk_id : ℕ
  document_id : ℕ
  document_title : List Char
  document_filename : List Char
  chunk_index : ℕ
  content : List Char
  similarity_score : ℚ
  metadata : Option ChunkMetadata
  created_at : ℕ
deriving DecidableEq

/-- Rounding to four decimal places, the JavaScript Math.round of the score
times ten thousand divided by ten thousand. -/
def round4 (q : ℚ) : ℚ := (⌊q * 10000 + 1 / 2⌋ : ℚ) / 10000

/-- Model of VectorSearchService.formatSearchResult. -/
def formatSearchResult (r : SearchResult) : SearchResult :=
  { r with similarity_score := round4 r.similarity_score }

/-- The join of document_chunks with documents on document id, in the base
order of the chunk table.  The document id is the primary key of documents,
so each chunk contributes at most one joined row in a well-formed store. -/
def joinRows (db : DB) : List (ChunkRow × Doc) :=
  db.chunks.flatMap fun c =>
    (db.documents.filter (fun d => d.id = c.document_id)).map (fun d => (c, d))

/-- The document id restriction clause: active only when a non-empty filter
list is supplied, exactly as the source guards on length. -/
def docIdFilter (filt : Option (List ℕ)) (docId : ℕ) : Bool :=
  match filt with
  | some (i :: is) => decide (docId ∈ i :: is)
  | _ => true

/-- The document id exclusion clause, active only for a non-empty list. -/
def docIdExclude (excl : Option (List ℕ)) (docId : ℕ) : Bool :=
  match excl with
  | some (i :: is) => !decide (docId ∈ i :: is)
  | _ => true

/-- One joined output row of the search queries. -/
def mkSearchResult (cd : ChunkRow × Doc) (includeMeta : Bool) (score : ℚ) : SearchResult where
  chunk_id := cd.1.id
  document_id := cd.1.document_id
  document_title := cd.2.title
  document_filename := cd.2.filename
  chunk_index := cd.1.chunk_index
  content := cd.1.content
  similarity_score := score
  metadata := if includeMeta then cd.1.metadata else none
  created_at := cd.1.created_at

/-- Model of VectorSearchService.semanticSearch over a fixed store.  The
function dist stands for the vector distance of each stored chunk embedding
to the fixed query embedding; similarity is one minus that distance.  Rows
are filtered by owner, completed status, presence of an embedding, the
optional document id restrictions and the similarity threshold, then sorted
by distance ascending, capped at the limit, and formatted (which rounds the
reported score to four decimal places). -/
def semanticSearchModel (db : DB) (userId : ℕ) (dist : ChunkRow → ℚ)
    (opts : SearchOptions) : List SearchResult :=
  let lim := opts.limit.getD 10
  let t := opts.similarity_threshold.getD (7 / 10)
  let includeMeta := opts.include_metadata.getD true
  let filtered := (joinRows db).filter fun cd =>
    decide (cd.2.user_id = userId) && decide (cd.2.processing_status = .completed) &&
    cd.1.embedding.isSome && docIdFilter opts.filter_document_ids cd.1.document_id &&
    docIdExclude opts.exclude_document_ids cd.1.document_id &&
    decide (t ≤ 1 - dist cd.1)
  let sorted := sortByB (fun a b => decide (dist a.1 ≤ dist b.1)) filtered
  (sorted.take lim).map fun cd => formatSearchResult (mkSearchResult cd includeMeta (1 - dist cd.1))

/-- The blended score of hybridSearch: semantic score times semantic weight
plus the coalesced keyword score (lexical rank times keyword boost, zero
when the text query does not match) times keyword weight. -/
def blendedScore (dist : ChunkRow → ℚ) (tsrank : ChunkRow → Option ℚ)
    (sw kw boost : ℚ) (c : ChunkRow) : ℚ :=
  (1 - dist c) * sw + (match tsrank c with | some r => r * boost | none => 0) * kw

/-- Model of VectorSearchService.hybridSearch over a fixed store.  The
function tsrank stands for the lexical relevance of each chunk text against
the tokenised query, none when the full-text match fails (so the left join
finds no keyword row and the score coalesces to zero).  The semantic
threshold is applied to the semantic score before blending; ordering is by
blended score descending. -/
def hybridSearchModel (db : DB) (userId : ℕ) (dist : ChunkRow → ℚ)
    (tsrank : ChunkRow → Option ℚ) (opts : HybridSearchOptions) : List SearchResult :=
  let lim := opts.limit.getD 10
  let t := opts.similarity_threshold.getD (1 / 2)
  let kw := opts.keyword_weight.getD (3 / 10)
  let sw := opts.semantic_weight.getD (7 / 10)
  let boost := opts.keyword_boost.getD (6 / 5)
  let includeMeta := opts.include_metadata.getD true
  let blended := blendedScore dist tsrank sw kw boost
  let semRows := (joinRows db).filter fun cd =>
    decide (cd.2.user_id = userId) && decide (cd.2.processing_status = .completed) &&
    cd.1.embedding.isSome
  let filtered := semRows.filter fun cd =>
    decide (t ≤ 1 - dist cd.1) && docIdFilter opts.filter_document_ids cd.1.document_id &&
    docIdExclude opts.exclude_document_ids cd.1.document_id
  let sorted := sortByB (fun a b => decide (blended b.1 ≤ blended a.1)) filtered
  (sorted.take lim).map fun cd => formatSearchResult (mkSearchResult cd includeMeta (blended cd.1))

/-! ## DocumentService (packages/api/src/services/DocumentService.ts) -/

structure ChunkOptionsIn where
  maxChunkSize : Option ℕ := none
  chunkOverlap : Option ℕ := none
  preserveSentences : Option Bool := none
  preserveParagraphs : Option Bool := none

/-- Caller options of processDocument.  Extraction options are forwarded
verbatim to the extractor collaborator, which the model folds into the
environment, so they are not repeated here. -/
structure DocumentProcessingOptions where
  generateEmbeddings : Option Bool := none
  chunkOptions : ChunkOptionsIn := {}

structure DocumentProcessingResult where
  document : Doc
  chunks : Option (List ChunkRow)
  success : Bool
  error : Option String
  embedding_result : Option BatchEmbeddingResult
deriving DecidableEq

/-- The external collaborators of the pipeline: the content hash of the file
currently stored at a path (the sha256 hex digest modelled as a number), the
text extractor (path and declared type to extracted content), and the
embedding provider. -/
structure PipelineEnv where
  hashAt : List Char → ℕ
  extractAt : List Char → List Char → Except String (List Char)
  provider : Provider

/-- Model of DocumentService.findDocumentByHash. -/
def findDocumentByHash (db : DB) (hash userId : ℕ) : Option Doc :=
  db.documents.find? fun d => decide (d.content_hash = hash) && decide (d.user_id = userId)

/-- Index of the last occurrence of a character. -/
def lastCharIdxGo (c : Char) : List Char → ℕ → Option ℕ → Option ℕ
  | [], _, acc => acc
  | x :: rest, i, acc => lastCharIdxGo c rest (i + 1) (if x == c then some i else acc)

def lastCharIdx (c : Char) (l : List Char) : Option ℕ := lastCharIdxGo c l 0 none

/-- The name field of path.parse applied to a bare filename: everything
before the last dot, unless that dot is the leading character. -/
def stripExtension (name : List Char) : List Char :=
  match lastCharIdx '.' name with
  | some k => if 0 < k then name.take k else name
  | none => name

/-- Model of DocumentService.createDocumentRecord: insert a new document row
in pending status with zero chunks, drawing the next document id. -/
def createDocumentRecord (db : DB) (filePath originalName : List Char) (userId : ℕ)
    (mimeType : List Char) (fileSize contentHash : ℕ) (title : Option (List Char)) :
    Doc × DB :=
  let documentTitle := title.getD (stripExtension originalName)
  let doc : Doc :=
    { id := db.nextDocId
      user_id := userId
      title := documentTitle
      filename := originalName
      file_path := filePath
      file_type := mimeType
      file_size := fileSize
      content_hash := contentHash
      processing_status := .pending
      chunk_count := 0 }
  (doc, { db with documents := db.documents ++ [doc], nextDocId := db.nextDocId + 1 })

/-- Model of DocumentService.updateDocumentStatus. -/
def updateDocumentStatus (db : DB) (docId : ℕ) (st : ProcessingStatus) : DB :=
  { db with
    documents := db.documents.map fun d =>
      if d.id = docId then { d with processing_status := st } else d }

/-- Model of DocumentService.updateDocumentProcessing. -/
def updateDocumentProcessing (db : DB) (docId : ℕ) (st : ProcessingStatus) (cnt : ℕ) : DB :=
  { db with
    documents := db.documents.map fun d =>
      if d.id = docId then { d with processing_status := st, chunk_count := cnt } else d }

def findById (db : DB) (docId : ℕ) : Option Doc :=
  db.documents.find? fun d => decide (d.id = docId)

/-- Model of DocumentService.getDocumentChunks: the chunk rows of a document
ordered by chunk index. -/
def getDocumentChunksDb (db : DB) (docId : ℕ) : List ChunkRow :=
  sortByB (fun a b => decide (a.chunk_index ≤ b.chunk_index))
    (db.chunks.filter fun ch => decide (ch.document_id = docId))

/-- A chunk as handed to the persistence helpers, before an id is drawn. -/
structure NewChunk where
  document_id : ℕ
  chunk_index : ℕ
  content : List Char
  content_tokens : ℕ
  embedding : Option (List ℚ)
  metadata : Option ChunkMetadata
deriving DecidableEq

/-- Model of the batch insert into document_chunks: ids are drawn
sequentially and rows are appended in order. -/
def batchInsertChunks (db : DB) (rows : List NewChunk) : DB :=
  { db with
    chunks := db.chunks ++ mapWithIndex
      (fun i r =>
        { id := db.nextChunkId + i
          document_id := r.document_id
          chunk_index := r.chunk_index
          content := r.content
          content_tokens := r.content_tokens
          embedding := r.embedding
          metadata := r.metadata
          created_at := 0 : ChunkRow })
      rows
    nextChunkId := db.nextChunkId + rows.length }

/-- A chunk as passed from the orchestrator into chunk persistence. -/
structure StoredChunkIn where
  content : List Char
  chunk_index : ℕ
  content_tokens : ℕ
  metadata : Option ChunkMetadata
deriving DecidableEq

/-- Model of EmbeddingService.storeEmbeddings: demand equal lengths, then
batch-insert chunk rows carrying their vectors positionally. -/
def storeEmbeddingsDb (db : DB) (documentId : ℕ) (chunks : List StoredChunkIn)
    (embeddings : List EmbeddingResult) : Except String DB :=
  if chunks.length ≠ embeddings.length then
    .error "Chunks and embeddings arrays must have the same length"
  else
    .ok (batchInsertChunks db (List.zipWith
      (fun ch er =>
        { document_id := documentId
          chunk_index := ch.chunk_index
          content := ch.content
          content_tokens := ch.content_tokens
          embedding := some er.embedding
          metadata := ch.metadata : NewChunk })
      chunks embeddings))

/-- Model of DocumentService.storeChunksWithoutEmbeddings. -/
def storeChunksWithoutEmbeddings (db : DB) (documentId : ℕ)
    (chunks : List StoredChunkIn) : DB :=
  batchInsertChunks db (chunks.map fun ch =>
    { document_id := documentId
      chunk_index := ch.chunk_index
      content := ch.content
      content_tokens := ch.content_tokens
      embedding := none
      metadata := ch.metadata : NewChunk })

/-- The chunk options literal of processDocument spread over the caller
options: the four listed fields are always set, the rest stay unset so the
chunker defaults apply. -/
def mergeChunkOpts (co : ChunkOptionsIn) : ChunkOptions where
  maxChunkSize := some (co.maxChunkSize.getD 1000)
  chunkOverlap := some (co.chunkOverlap.getD 100)
  preserveSentences := some (co.preserveSentences.getD true)
  preserveParagraphs := some (co.preserveParagraphs.getD true)
  minChunkSize := none
  separators := none

def toChunkIn (tc : TextChunk) : ChunkIn := ⟨tc.content, tc.chunk_index⟩

def toStoredChunk (tc : TextChunk) : StoredChunkIn :=
  ⟨tc.content, tc.chunk_index, tc.content_tokens, some tc.metadata⟩

/-- The structured failure result built in the catch block of
processDocument: the document as created, no chunks, success false and the
caught message. -/
def failResult (doc : Doc) (msg : String) : DocumentProcessingResult :=
  ⟨doc, none, false, some msg, none⟩

/-- Model of DocumentService.processDocument.  The state is threaded
explicitly: the call takes and returns the store and the provider call
number.  Every failure after document creation is caught, turns the
document status to failed and is returned as a structured result. -/
def processDocument (env : PipelineEnv) (db : DB) (c : ℕ)
    (filePath originalName : List Char) (userId : ℕ) (mimeType : List Char)
    (fileSize : ℕ) (title : Option (List Char))
    (options : DocumentProcessingOptions) : DocumentProcessingResult × DB × ℕ :=
  let genEmb := options.generateEmbeddings.getD true
  let contentHash := env.hashAt filePath
  match findDocumentByHash db contentHash userId with
  | some existingDoc => (⟨existingDoc, none, true, none, none⟩, db, c)
  | none =>
      let created := createDocumentRecord db filePath originalName userId mimeType
        fileSize contentHash title
      let doc := created.1
      let db2 := updateDocumentStatus created.2 doc.id .processing
      match env.extractAt filePath mimeType with
      | .error e => (failResult doc e, updateDocumentStatus db2 doc.id .failed, c)
      | .ok content =>
          if (jsTrim content).length = 0 then
            (failResult doc "No text content could be extracted from the document",
              updateDocumentStatus db2 doc.id .failed, c)
          else
            let textChunks := chunkText content (mergeChunkOpts options.chunkOptions)
            if textChunks.length = 0 then
              (failResult doc "Document could not be chunked - content may be too short",
                updateDocumentStatus db2 doc.id .failed, c)
            else if genEmb then
              match generateEmbeddings (textChunks.map toChunkIn) {} env.provider c with
              | (.error e, c', _) =>
                  (failResult doc e, updateDocumentStatus db2 doc.id .failed, c')
              | (.ok embRes, c', _) =>
                  match storeEmbeddingsDb db2 doc.id (textChunks.map toStoredChunk)
                    embRes.embeddings with
                  | .error e =>
                      (failResult doc e, updateDocumentStatus db2 doc.id .failed, c')
                  | .ok db3 =>
                      let db4 := updateDocumentProcessing db3 doc.id .completed textChunks.length
                      (⟨(findById db4 doc.id).getD doc, some (getDocumentChunksDb db4 doc.id),
                        true, none, some embRes⟩, db4, c')
            else
              let db3 := storeChunksWithoutEmbeddings db2 doc.id
                (textChunks.map toStoredChunk)
              let db4 := updateDocumentProcessing db3 doc.id .completed textChunks.length
              (⟨(findById db4 doc.id).getD doc, some (getDocumentChunksDb db4 doc.id),
                true, none, none⟩, db4, c)

structure UpdateEmbeddingsResult where
  updatedChunks : ℕ
  cost : ℚ
deriving DecidableEq

/-- The selection predicate of updateEmbeddings for chunks lacking an
embedding: a null vector or a vector of length zero. -/
def chunkNeedsEmbedding (ch : ChunkRow) : Bool :=
  match ch.embedding with
  | none => true
  | some v => decide (v.length = 0)

/-- A single row update writing only the embedding column of the row with
the given id. -/
def applyEmbeddingUpdate (chunks : List ChunkRow) (targetId : ℕ) (emb : List ℚ) :
    List ChunkRow :=
  chunks.map fun ch => if ch.id = targetId then { ch with embedding := some emb } else ch

/-- The sequential update loop of updateEmbeddings. -/
def applyEmbeddingUpdates (chunks : List ChunkRow) : List (ℕ × List ℚ) → List ChunkRow
  | [] => chunks
  | (i, v) :: rest => applyEmbeddingUpdates (applyEmbeddingUpdate chunks i v) rest

/-- The chunk selection of updateEmbeddings: all chunks of the document when
regeneration is forced, otherwise only the chunks lacking an embedding. -/
def chunksToUpdateOf (db : DB) (documentId : ℕ) (forceRegenerate : Bool) : List ChunkRow :=
  if forceRegenerate then getDocumentChunksDb db documentId
  else (getDocumentChunksDb db documentId).filter chunkNeedsEmbedding

/-- Model of EmbeddingService.updateEmbeddings.  When the provider returns
fewer embeddings than selected chunks, the source loop crashes on the first
missing entry after having applied the updates for the pairs that do exist;
the crash is caught and wrapped, leaving those partial updates in place. -/
def updateEmbeddingsSvc (db : DB) (p : Provider) (c : ℕ) (documentId : ℕ)
    (forceRegenerate : Bool) : Except String UpdateEmbeddingsResult × DB × ℕ :=
  if (getDocumentChunksDb db documentId).isEmpty then (.ok ⟨0, 0⟩, db, c)
  else
    if (chunksToUpdateOf db documentId forceRegenerate).isEmpty then (.ok ⟨0, 0⟩, db, c)
    else
      match generateEmbeddings ((chunksToUpdateOf db documentId forceRegenerate).map
        fun ch => ⟨ch.content, ch.chunk_index⟩) {} p c with
      | (.error e, c', _) => (.error ("Failed to update embeddings: " ++ e), db, c')
      | (.ok batchResult, c', _) =>
          let ups := List.zipWith (fun (ch : ChunkRow) (er : EmbeddingResult) =>
            (ch.id, er.embedding)) (chunksToUpdateOf db documentId forceRegenerate)
            batchResult.embeddings
          let db' := { db with chunks := applyEmbeddingUpdates db.chunks ups }
          if batchResult.embeddings.length < (chunksToUpdateOf db documentId
              forceRegenerate).length then
            (.error "Failed to update embeddings: Cannot read properties of undefined", db', c')
          else
            (.ok ⟨(chunksToUpdateOf db documentId forceRegenerate).length, batchResult.cost⟩,
              db', c')

structure ReprocessResult where
  success : Bool
  cost : ℚ
  chunks_updated : ℕ
deriving DecidableEq

/-- Model of DocumentService.reprocessDocument: owner check, status gate
unless forced, then delegate to updateEmbeddings; errors propagate to the
caller as exceptions. -/
def reprocessDocument (db : DB) (p : Provider) (c : ℕ) (documentId userId : ℕ)
    (force : Bool) : Except String ReprocessResult × DB × ℕ :=
  match db.documents.find? (fun d => decide (d.id = documentId) && decide (d.user_id = userId)) with
  | none => (.error "Document not found or access denied", db, c)
  | some d =>
      if d.processing_status ≠ .completed ∧ force = false then
        (.error "Document must be in completed status to reprocess", db, c)
      else
        match updateEmbeddingsSvc db p c documentId force with
        | (.error e, db', c') => (.error e, db', c')
        | (.ok r, db', c') => (.ok ⟨true, r.cost, r.updatedChunks⟩, db', c')

/-! ## Helper notions used by the verification layer -/

/-- A provider that fails its first two calls and then succeeds, the concrete
fails-twice-then-succeeds scenario of the spec. -/
def providerFailTwice : Provider :=
  fun _ i _ => if i < 2 then .error "boom" else .ok ⟨[[1]], 7⟩

/-- A provider that fails every call. -/
def providerAlwaysFail : Provider := fun _ _ _ => .error "boom"

/-- A provider that succeeds on its first call and fails afterwards. -/
def providerOkThenFail : Provider :=
  fun _ i _ => if i = 0 then .ok ⟨[[1]], 7⟩ else .error "boom"

/-- The map applied to every document row by updateDocumentStatus. -/
def statusUpdater (docId : ℕ) (st : ProcessingStatus) : Doc → Doc :=
  fun d => if d.id = docId then { d with processing_status := st } else d

/-- The map applied to every document row by updateDocumentProcessing. -/
def procUpdater (docId : ℕ) (st : ProcessingStatus) (cnt : ℕ) : Doc → Doc :=
  fun d => if d.id = docId then { d with processing_status := st, chunk_count := cnt } else d

/-- A document transformation that keeps the dedup key (content hash and
owner) and the primary key. -/
def preservesKey (g : Doc → Doc) : Prop :=
  ∀ d, (g d).content_hash = d.content_hash ∧ (g d).user_id = d.user_id ∧ (g d).id = d.id

/-- A pipeline environment whose extractor yields three letters, below the
default minimum chunk size. -/
def envC10 : PipelineEnv :=
  ⟨fun _ => 1, fun _ _ => .ok ['a', 'b', 'c'], providerAlwaysFail⟩

/-- The batch result of one seven-token provider response on one chunk. -/
def batchResWit : BatchEmbeddingResult :=
  ⟨mkEmbeddings ⟨[[1]], 7⟩ (validateChunks [⟨"hi".toList, 0⟩]), 7, calculateCost 7⟩

/-- A completed document of user 1 for the search counterexample. -/
def docC2 : Doc := ⟨1, 1, [], [], [], [], 0, 0, .completed, 1⟩

/-- An embedded chunk of that document. -/
def chC2 : ChunkRow := ⟨1, 1, 0, ['x'], 1, some [1], none, 0⟩

/-- A store holding exactly that document and chunk. -/
def dbC2 : DB := ⟨[docC2], [chC2], 2, 2⟩

/-- The cumulative effect of the sequential embedding updates on one row. -/
def updRow (ups : List (ℕ × List ℚ)) (ch : ChunkRow) : ChunkRow :=
  ups.foldl (fun acc iv => if acc.id = iv.1 then { acc with embedding := some iv.2 } else acc) ch

/-- The frame relation of the reprocessing path: every chunk row keeps all
its fields, and its embedding may change only when the row belongs to the
reprocessed document and was selected (forced, or lacking an embedding). -/
def chunkFrameR (documentId : ℕ) (force : Bool) (o n : ChunkRow) : Prop :=
  n.id = o.id ∧ n.document_id = o.document_id ∧ n.chunk_index = o.chunk_index ∧
  n.content = o.content ∧ n.content_tokens = o.content_tokens ∧
  n.created_at = o.created_at ∧ n.metadata = o.metadata ∧
  (n.embedding = o.embedding ∨
    (o.document_id = documentId ∧ (force = true ∨ chunkNeedsEmbedding o = true)))

/-- An empty document store. -/
def dbEmpty : DB := ⟨[], [], 0, 0⟩

/-- A pipeline environment whose extractor yields 120 characters of text and
whose embedding provider always fails. -/
def envC5 : PipelineEnv :=
  ⟨fun _ => 1, fun _ _ => .ok (List.replicate 120 'a'), providerAlwaysFail⟩

/-- A pipeline environment whose extractor yields 120 characters of text and
whose embedding provider succeeds with one vector. -/
def envC6 : PipelineEnv :=
  ⟨fun _ => 1, fun _ _ => .ok (List.replicate 120 'a'), fun _ _ _ => .ok ⟨[[1]], 5⟩⟩

/-- A store with a completed document (id 1) whose single chunk already
carries an embedding, and a pending document (id 3), both owned by user 2. -/
def dbReproWit : DB :=
  ⟨[⟨1, 2, [], [], [], [], 0, 0, .completed, 1⟩,
    ⟨3, 2, [], [], [], [], 0, 0, .pending, 0⟩],
   [⟨5, 1, 0, ['x'], 1, some [1], none, 0⟩], 10, 10⟩

/-! ## Generic lemmas about the sorting and renumbering helpers -/

theorem length_insertSorted (le : α → α → Bool) (x : α) (l : List α) :
    (insertSorted le x l).length = l.length + 1 := by
  induction l with
  | nil => rfl
  | cons b bs ih =>
      simp only [insertSorted]
      split <;> simp [ih]

theorem length_sortByB (le : α → α → Bool) (l : List α) :
    (sortByB le l).length = l.length := by
  induction l with
  | nil => rfl
  | cons x xs ih => simp [sortByB, length_insertSorted, ih]

theorem mem_insertSorted (le : α → α → Bool) (x y : α) (l : List α) :
    y ∈ insertSorted le x l ↔ y = x ∨ y ∈ l := by
  induction l with
  | nil => simp [insertSorted]
  | cons b bs ih =>
      simp only [insertSorted]
      split <;> simp [ih] <;> tauto

theorem mem_sortByB (le : α → α → Bool) (y : α) (l : List α) :
    y ∈ sortByB le l ↔ y ∈ l := by
  induction l with
  | nil => simp [sortByB]
  | cons x xs ih => simp [sortByB, mem_insertSorted, ih]

theorem pairwise_insertSorted (le : α → α → Bool)
    (htot : ∀ a b, le a b = true ∨ le b a = true)
    (htrans : ∀ a b c, le a b = true → le b c = true → le a c = true)
    (x : α) (l : List α) (h : l.Pairwise (fun a b => le a b = true)) :
    (insertSorted le x l).Pairwise (fun a b => le a b = true) := by
  induction l with
  | nil => simp [insertSorted]
  | cons b bs ih =>
      rcases List.pairwise_cons.mp h with ⟨hb, hbs⟩
      simp only [insertSorted]
      split
      next hxb =>
        refine List.pairwise_cons.mpr ⟨?_, h⟩
        intro y hy
        rcases List.mem_cons.mp hy with heq | hy
        · rw [heq]; exact hxb
        · exact htrans x b y hxb (hb y hy)
      next hxb =>
        refine List.pairwise_cons.mpr ⟨?_, ih hbs⟩
        intro y hy
        rcases (mem_insertSorted le x y bs).mp hy with heq | hy
        · rw [heq]
          rcases htot x b with hx | hx
          · exact absurd hx hxb
          · exact hx
        · exact hb y hy

theorem pairwise_sortByB (le : α → α → Bool)
    (htot : ∀ a b, le a b = true ∨ le b a = true)
    (htrans : ∀ a b c, le a b = true → le b c = true → le a c = true)
    (l : List α) : (sortByB le l).Pairwise (fun a b => le a b = true) := by
  induction l with
  | nil => simp [sortByB]
  | cons x xs ih => exact pairwise_insertSorted le htot htrans x (sortByB le xs) ih

theorem sortByB_eq_self (le : α → α → Bool) (l : List α)
    (h : l.Pairwise (fun a b => le a b = true)) : sortByB le l = l := by
  induction l with
  | nil => rfl
  | cons x xs ih =>
      rcases List.pairwise_cons.mp h with ⟨hx, hxs⟩
      rw [sortByB, ih hxs]
      cases xs with
      | nil => rfl
      | cons y ys => simp [insertSorted, hx y (List.mem_cons_self y ys)]

theorem length_mapWithIndexGo (f : ℕ → α → β) (n : ℕ) (l : List α) :
    (mapWithIndexGo f n l).length = l.length := by
  induction l generalizing n with
  | nil => rfl
  | cons a as ih => simp [mapWithIndexGo, ih]

theorem length_mapWithIndex (f : ℕ → α → β) (l : List α) :
    (mapWithIndex f l).length = l.length := length_mapWithIndexGo f 0 l

theorem map_chunkIndex_mapWithIndexGo (f : ℕ → TextChunk → TextChunk)
    (hf : ∀ i ch, (f i ch).chunk_index = i) (n : ℕ) (l : List TextChunk) :
    (mapWithIndexGo f n l).map TextChunk.chunk_index = List.range' n l.length := by
  induction l generalizing n with
  | nil => rfl
  | cons a as ih => simp [mapWithIndexGo, List.range', hf, ih]

/-- The renumbering pass at the end of chunkText makes the chunk indices of
its output exactly the positions zero to length minus one. -/
theorem chunkText_indices (text : List Char) (opts : ChunkOptions) :
    (chunkText text opts).map TextChunk.chunk_index =
      List.range (chunkText text opts).length := by
  rw [chunkText]
  split
  · rfl
  · rw [mapWithIndex, map_chunkIndex_mapWithIndexGo _ (fun i ch => rfl),
      length_mapWithIndexGo, List.range_eq_range']

/-! ## Lemmas about the document store and the ingestion pipeline -/

theorem documents_updateDocumentStatus (db : DB) (i : ℕ) (st : ProcessingStatus) :
    (updateDocumentStatus db i st).documents = db.documents.map (statusUpdater i st) := rfl

theorem documents_updateDocumentProcessing (db : DB) (i : ℕ) (st : ProcessingStatus) (cnt : ℕ) :
    (updateDocumentProcessing db i st cnt).documents = db.documents.map (procUpdater i st cnt) :=
  rfl

theorem statusUpdater_preserves (docId : ℕ) (st : ProcessingStatus) :
    preservesKey (statusUpdater docId st) := by
  intro d
  by_cases h : d.id = docId <;> simp [statusUpdater, h]

theorem procUpdater_preserves (docId : ℕ) (st : ProcessingStatus) (cnt : ℕ) :
    preservesKey (procUpdater docId st cnt) := by
  intro d
  by_cases h : d.id = docId <;> simp [procUpdater, h]

theorem preservesKey_comp {g₁ g₂ : Doc → Doc} (h₁ : preservesKey g₁) (h₂ : preservesKey g₂) :
    preservesKey (g₂ ∘ g₁) := by
  intro d
  rcases h₂ (g₁ d) with ⟨a, b, c⟩
  rcases h₁ d with ⟨a', b', c'⟩
  exact ⟨a.trans a', b.trans b', c.trans c'⟩

theorem statusUpdater_sets {l : List Doc} (i : ℕ) (st : ProcessingStatus) :
    ∀ d' ∈ l.map (statusUpdater i st), d'.id = i → d'.processing_status = st := by
  intro d' hd' hi
  obtain ⟨d, hd, hdd⟩ := List.mem_map.mp hd'
  by_cases h : d.id = i
  · rw [← hdd]
    simp [statusUpdater, h]
  · rw [← hdd] at hi
    simp only [statusUpdater, if_neg h] at hi
    exact absurd hi h

theorem storeEmbeddingsDb_ok_documents {db db' : DB} {i : ℕ} {chs : List StoredChunkIn}
    {es : List EmbeddingResult} (h : storeEmbeddingsDb db i chs es = .ok db') :
    db'.documents = db.documents := by
  rw [storeEmbeddingsDb] at h
  split at h
  · exact absurd h (by simp)
  · injection h with h'
    rw [← h']
    rfl

theorem findById_getD_id (db : DB) (i : ℕ) (fb : Doc) (hfb : fb.id = i) :
    ((findById db i).getD fb).id = i := by
  cases h : findById db i with
  | none => simpa using hfb
  | some d =>
      have := List.find?_some h
      simpa using of_decide_eq_true this

theorem processDocument_post (env : PipelineEnv) (db : DB) (c : ℕ)
    (filePath originalName : List Char) (userId : ℕ) (mimeType : List Char)
    (fileSize : ℕ) (title : Option (List Char)) (popts : DocumentProcessingOptions)
    (hnone : findDocumentByHash db (env.hashAt filePath) userId = none) :
    ∃ g : Doc → Doc, preservesKey g ∧
      (processDocument env db c filePath originalName userId mimeType fileSize title
        popts).2.1.documents =
        (db.documents ++ [(createDocumentRecord db filePath originalName userId mimeType
          fileSize (env.hashAt filePath) title).1]).map g ∧
      (processDocument env db c filePath originalName userId mimeType fileSize title
        popts).1.document.id = db.nextDocId := by
  have hcdoc : (createDocumentRecord db filePath originalName userId mimeType fileSize
      (env.hashAt filePath) title).2.documents =
      db.documents ++ [(createDocumentRecord db filePath originalName userId mimeType fileSize
        (env.hashAt filePath) title).1] := rfl
  set doc0 := (createDocumentRecord db filePath originalName userId mimeType fileSize
    (env.hashAt filePath) title).1 with hdoc0
  have hid : doc0.id = db.nextDocId := rfl
  cases hE : env.extractAt filePath mimeType with
  | error e =>
      refine ⟨statusUpdater doc0.id .failed ∘ statusUpdater doc0.id .processing,
        preservesKey_comp (statusUpdater_preserves _ _) (statusUpdater_preserves _ _), ?_, ?_⟩
      · simp only [processDocument, hnone, hE]
        rw [documents_updateDocumentStatus, documents_updateDocumentStatus, hcdoc, List.map_map]
      · simp only [processDocument, hnone, hE]
        exact hid
  | ok content =>
      by_cases hT : (jsTrim content).length = 0
      · refine ⟨statusUpdater doc0.id .failed ∘ statusUpdater doc0.id .processing,
          preservesKey_comp (statusUpdater_preserves _ _) (statusUpdater_preserves _ _), ?_, ?_⟩
        · simp only [processDocument, hnone, hE, if_pos hT]
          rw [documents_updateDocumentStatus, documents_updateDocumentStatus, hcdoc, List.map_map]
        · simp only [processDocument, hnone, hE, if_pos hT]
          exact hid
      · by_cases hC : (chunkText content (mergeChunkOpts popts.chunkOptions)).length = 0
        · refine ⟨statusUpdater doc0.id .failed ∘ statusUpdater doc0.id .processing,
            preservesKey_comp (statusUpdater_preserves _ _) (statusUpdater_preserves _ _), ?_, ?_⟩
          · simp only [processDocument, hnone, hE, if_neg hT, if_pos hC]
            rw [documents_updateDocumentStatus, documents_updateDocumentStatus, hcdoc, List.map_map]
          · simp only [processDocument, hnone, hE, if_neg hT, if_pos hC]
            exact hid
        · by_cases hG : popts.generateEmbeddings.getD true = true
          · rcases hGE : generateEmbeddings ((chunkText content
                (mergeChunkOpts popts.chunkOptions)).map toChunkIn) {} env.provider c
              with ⟨res, c2, ds⟩
            cases res with
            | error e2 =>
                refine ⟨statusUpdater doc0.id .failed ∘ statusUpdater doc0.id .processing,
                  preservesKey_comp (statusUpdater_preserves _ _) (statusUpdater_preserves _ _),
                  ?_, ?_⟩
                · simp only [processDocument, hnone, hE, if_neg hT, if_neg hC, if_pos hG, hGE]
                  rw [documents_updateDocumentStatus, documents_updateDocumentStatus, hcdoc,
                    List.map_map]
                · simp only [processDocument, hnone, hE, if_neg hT, if_neg hC, if_pos hG, hGE]
                  exact hid
            | ok embRes =>
                cases hS : storeEmbeddingsDb (updateDocumentStatus
                    (createDocumentRecord db filePath originalName userId mimeType fileSize
                      (env.hashAt filePath) title).2 doc0.id .processing) doc0.id
                    ((chunkText content (mergeChunkOpts popts.chunkOptions)).map toStoredChunk)
                    embRes.embeddings with
                | error e3 =>
                    refine ⟨statusUpdater doc0.id .failed ∘ statusUpdater doc0.id .processing,
                      preservesKey_comp (statusUpdater_preserves _ _)
                        (statusUpdater_preserves _ _), ?_, ?_⟩
                    · simp only [processDocument, hnone, hE, if_neg hT, if_neg hC, if_pos hG,
                        hGE, hS]
                      rw [documents_updateDocumentStatus, documents_updateDocumentStatus, hcdoc,
                        List.map_map]
                    · simp only [processDocument, hnone, hE, if_neg hT, if_neg hC, if_pos hG,
                        hGE, hS]
                      exact hid
                | ok db3 =>
                    refine ⟨procUpdater doc0.id .completed
                        (chunkText content (mergeChunkOpts popts.chunkOptions)).length ∘
                        statusUpdater doc0.id .processing,
                      preservesKey_comp (statusUpdater_preserves _ _)
                        (procUpdater_preserves _ _ _), ?_, ?_⟩
                    · simp only [processDocument, hnone, hE, if_neg hT, if_neg hC, if_pos hG,
                        hGE, hS]
                      rw [documents_updateDocumentProcessing, storeEmbeddingsDb_ok_documents hS,
                        documents_updateDocumentStatus, hcdoc, List.map_map]
                    · simp only [processDocument, hnone, hE, if_neg hT, if_neg hC, if_pos hG,
                        hGE, hS]
                      exact findById_getD_id _ _ _ hid
          · refine ⟨procUpdater doc0.id .completed
                (chunkText content (mergeChunkOpts popts.chunkOptions)).length ∘
                statusUpdater doc0.id .processing,
              preservesKey_comp (statusUpdater_preserves _ _) (procUpdater_preserves _ _ _),
              ?_, ?_⟩
            · simp only [processDocument, hnone, hE, if_neg hT, if_neg hC, if_neg hG]
              rw [documents_updateDocumentProcessing]
              rw [show (storeChunksWithoutEmbeddings (updateDocumentStatus
                  (createDocumentRecord db filePath originalName userId mimeType fileSize
                    (env.hashAt filePath) title).2 doc0.id .processing) doc0.id
                  ((chunkText content (mergeChunkOpts popts.chunkOptions)).map
                    toStoredChunk)).documents =
                (updateDocumentStatus (createDocumentRecord db filePath originalName userId
                  mimeType fileSize (env.hashAt filePath) title).2 doc0.id
                  .processing).documents from rfl]
              rw [documents_updateDocumentStatus, hcdoc, List.map_map]
            · simp only [processDocument, hnone, hE, if_neg hT, if_neg hC, if_neg hG]
              exact findById_getD_id _ _ _ hid

theorem find?_docMatch_eq_none {l : List Doc} {h u : ℕ}
    (hfresh : ∀ d ∈ l, ¬(d.content_hash = h ∧ d.user_id = u)) :
    l.find? (fun d => decide (d.content_hash = h) && decide (d.user_id = u)) = none := by
  rw [List.find?_eq_none]
  intro d hd
  simpa using hfresh d hd

theorem find?_keyed_map_append {g : Doc → Doc} (hg : preservesKey g) (h u : ℕ) (doc0 : Doc)
    (hdh : doc0.content_hash = h) (hdu : doc0.user_id = u) :
    ∀ l : List Doc, (∀ d ∈ l, ¬(d.content_hash = h ∧ d.user_id = u)) →
      (List.map g l ++ [g doc0]).find?
        (fun d => decide (d.content_hash = h) && decide (d.user_id = u)) = some (g doc0) := by
  intro l
  induction l with
  | nil =>
      intro _
      simp [(hg doc0).1, (hg doc0).2.1, hdh, hdu]
  | cons d ds ih =>
      intro hfresh
      have hd : ¬(d.content_hash = h ∧ d.user_id = u) := hfresh d (List.mem_cons_self d ds)
      have hpred : (decide ((g d).content_hash = h) && decide ((g d).user_id = u)) = false := by
        rcases hg d with ⟨h1, h2, _⟩
        rw [h1, h2]
        simpa using hd
      simpa [List.find?, hpred] using ih (fun x hx => hfresh x (List.mem_cons_of_mem d hx))

theorem findDocumentByHash_after {db' : DB} {l : List Doc} {doc0 : Doc} {g : Doc → Doc}
    (h u : ℕ) (hdocs : db'.documents = (l ++ [doc0]).map g) (hg : preservesKey g)
    (hfresh : ∀ d ∈ l, ¬(d.content_hash = h ∧ d.user_id = u))
    (hdh : doc0.content_hash = h) (hdu : doc0.user_id = u) :
    findDocumentByHash db' h u = some (g doc0) := by
  rw [findDocumentByHash, hdocs, List.map_append]
  exact find?_keyed_map_append hg h u doc0 hdh hdu l hfresh

theorem map_proj_mapWithIndexGo (f : ℕ → α → β) (g : β → γ) (h : α → γ)
    (hfg : ∀ i a, g (f i a) = h a) (n : ℕ) (l : List α) :
    (mapWithIndexGo f n l).map g = l.map h := by
  induction l generalizing n with
  | nil => rfl
  | cons a as ih => simp [mapWithIndexGo, hfg, ih]

theorem mem_mapWithIndexGo {f : ℕ → α → β} {b : β} {n : ℕ} {l : List α}
    (hb : b ∈ mapWithIndexGo f n l) : ∃ i a, a ∈ l ∧ b = f i a := by
  induction l generalizing n with
  | nil => simp [mapWithIndexGo] at hb
  | cons x xs ih =>
      rcases List.mem_cons.mp hb with heq | hmem
      · exact ⟨n, x, List.mem_cons_self x xs, heq⟩
      · obtain ⟨i, a, ha, hba⟩ := ih hmem
        exact ⟨i, a, List.mem_cons_of_mem x ha, hba⟩

theorem zipWith_left_proj (f : α → β → γ) (g : γ → δ) (e : α → δ)
    (hfe : ∀ a b, g (f a b) = e a) :
    ∀ (l₁ : List α) (l₂ : List β), l₁.length = l₂.length →
      (List.zipWith f l₁ l₂).map g = l₁.map e := by
  intro l₁
  induction l₁ with
  | nil => intro l₂ _; rfl
  | cons a as ih =>
      intro l₂ hlen
      cases l₂ with
      | nil => simp at hlen
      | cons b bs =>
          simp only [List.zipWith, List.map, hfe]
          rw [ih bs (by simpa using hlen)]

theorem mem_zipWith_elim {f : α → β → γ} {c : γ} :
    ∀ {l₁ : List α} {l₂ : List β}, c ∈ List.zipWith f l₁ l₂ →
      ∃ a b, a ∈ l₁ ∧ b ∈ l₂ ∧ c = f a b := by
  intro l₁
  induction l₁ with
  | nil => intro l₂ h; simp at h
  | cons a as ih =>
      intro l₂ h
      cases l₂ with
      | nil => simp at h
      | cons b bs =>
          rcases List.mem_cons.mp h with heq | hmem
          · exact ⟨a, b, List.mem_cons_self a as, List.mem_cons_self b bs, heq⟩
          · obtain ⟨a', b', ha, hb, hc⟩ := ih hmem
            exact ⟨a', b', List.mem_cons_of_mem a ha, List.mem_cons_of_mem b hb, hc⟩

theorem storeEmbeddingsDb_ok_spec {db db' : DB} {i : ℕ} {chs : List StoredChunkIn}
    {es : List EmbeddingResult} (h : storeEmbeddingsDb db i chs es = .ok db') :
    ∃ rows : List ChunkRow,
      db'.chunks = db.chunks ++ rows ∧
      rows.map ChunkRow.chunk_index = chs.map StoredChunkIn.chunk_index ∧
      ∀ ch ∈ rows, ch.document_id = i := by
  rw [storeEmbeddingsDb] at h
  split at h
  · exact absurd h (by simp)
  · next hlen =>
    injection h with h'
    subst h'
    refine ⟨_, rfl, ?_, ?_⟩
    · rw [mapWithIndex,
        map_proj_mapWithIndexGo _ ChunkRow.chunk_index NewChunk.chunk_index (fun _ _ => rfl)]
      refine zipWith_left_proj _ _ _ ?_ chs es (by omega)
      intro a b
      rfl
    · intro ch hch
      obtain ⟨j, r, hr, hchr⟩ := mem_mapWithIndexGo hch
      obtain ⟨a, b, _, _, hrab⟩ := mem_zipWith_elim hr
      rw [hchr, hrab]

theorem storeChunksWithoutEmbeddings_spec (db : DB) (i : ℕ) (chs : List StoredChunkIn) :
    ∃ rows : List ChunkRow,
      (storeChunksWithoutEmbeddings db i chs).chunks = db.chunks ++ rows ∧
      rows.map ChunkRow.chunk_index = chs.map StoredChunkIn.chunk_index ∧
      ∀ ch ∈ rows, ch.document_id = i := by
  refine ⟨_, rfl, ?_, ?_⟩
  · rw [mapWithIndex,
      map_proj_mapWithIndexGo _ ChunkRow.chunk_index NewChunk.chunk_index (fun _ _ => rfl),
      List.map_map]
    rfl
  · intro ch hch
    obtain ⟨j, r, hr, hchr⟩ := mem_mapWithIndexGo hch
    obtain ⟨a, ha, hra⟩ := List.mem_map.mp hr
    rw [hchr, ← hra]

theorem rows_sorted_chunks {rows : List ChunkRow} {n : ℕ}
    (hidx : rows.map ChunkRow.chunk_index = List.range n) :
    sortByB (fun a b => decide (a.chunk_index ≤ b.chunk_index)) rows = rows := by
  apply sortByB_eq_self
  have hr : (rows.map ChunkRow.chunk_index).Pairwise (· < ·) := by
    rw [hidx]
    exact List.pairwise_lt_range n
  have hp := List.pairwise_map.mp hr
  exact hp.imp fun h => by simpa using le_of_lt h

theorem getDocumentChunksDb_append_fresh {old rows : List ChunkRow} {i n : ℕ} (db' : DB)
    (hch : db'.chunks = old ++ rows)
    (hfresh : ∀ ch ∈ old, ch.document_id ≠ i)
    (hdocid : ∀ ch ∈ rows, ch.document_id = i)
    (hidx : rows.map ChunkRow.chunk_index = List.range n) :
    getDocumentChunksDb db' i = rows := by
  rw [getDocumentChunksDb, hch, List.filter_append]
  have h1 : old.filter (fun ch => decide (ch.document_id = i)) = [] := by
    rw [List.filter_eq_nil_iff]
    intro ch hch2
    simpa using hfresh ch hch2
  have h2 : rows.filter (fun ch => decide (ch.document_id = i)) = rows := by
    rw [List.filter_eq_self]
    intro ch hch2
    simpa using hdocid ch hch2
  rw [h1, h2, List.nil_append]
  exact rows_sorted_chunks hidx

theorem chs_map_index (textChunks : List TextChunk) :
    (textChunks.map toStoredChunk).map StoredChunkIn.chunk_index =
      textChunks.map TextChunk.chunk_index := by
  rw [List.map_map]
  rfl

theorem applyEmbeddingUpdates_eq_map (ups : List (ℕ × List ℚ)) :
    ∀ chunks : List ChunkRow, applyEmbeddingUpdates chunks ups = chunks.map (updRow ups) := by
  induction ups with
  | nil =>
      intro chunks
      rw [applyEmbeddingUpdates, show updRow [] = id from rfl, List.map_id]
  | cons iv rest ih =>
      intro chunks
      rcases iv with ⟨i, v⟩
      rw [applyEmbeddingUpdates, ih, applyEmbeddingUpdate, List.map_map]
      rfl

theorem updRow_fields (ups : List (ℕ × List ℚ)) :
    ∀ ch : ChunkRow, (updRow ups ch).id = ch.id ∧
      (updRow ups ch).document_id = ch.document_id ∧
      (updRow ups ch).chunk_index = ch.chunk_index ∧
      (updRow ups ch).content = ch.content ∧
      (updRow ups ch).content_tokens = ch.content_tokens ∧
      (updRow ups ch).created_at = ch.created_at ∧
      (updRow ups ch).metadata = ch.metadata := by
  induction ups with
  | nil => intro ch; exact ⟨rfl, rfl, rfl, rfl, rfl, rfl, rfl⟩
  | cons iv rest ih =>
      intro ch
      rw [updRow, List.foldl_cons]
      by_cases h : ch.id = iv.1
      · simpa [h] using ih { ch with embedding := some iv.2 }
      · simpa [h] using ih ch

theorem updRow_of_not_target (ups : List (ℕ × List ℚ)) :
    ∀ ch : ChunkRow, (∀ iv ∈ ups, iv.1 ≠ ch.id) → updRow ups ch = ch := by
  induction ups with
  | nil => intro ch _; rfl
  | cons iv rest ih =>
      intro ch h
      rw [updRow, List.foldl_cons]
      have h1 : ¬ ch.id = iv.1 := fun he => h iv (List.mem_cons_self iv rest) he.symm
      simp only [if_neg h1]
      exact ih ch fun x hx => h x (List.mem_cons_of_mem iv hx)

theorem chunkFrameR_refl (documentId : ℕ) (force : Bool) (o : ChunkRow) :
    chunkFrameR documentId force o o :=
  ⟨rfl, rfl, rfl, rfl, rfl, rfl, rfl, Or.inl rfl⟩

theorem forall₂_frame_refl (documentId : ℕ) (force : Bool) (l : List ChunkRow) :
    List.Forall₂ (chunkFrameR documentId force) l l :=
  List.forall₂_same.mpr fun o _ => chunkFrameR_refl documentId force o

theorem frame_of_updates {db : DB} {documentId : ℕ} {force : Bool}
    (hids : (db.chunks.map ChunkRow.id).Nodup)
    {ups : List (ℕ × List ℚ)}
    (hups : ∀ iv ∈ ups, ∃ o ∈ db.chunks, o.id = iv.1 ∧ o.document_id = documentId ∧
      (force = true ∨ chunkNeedsEmbedding o = true)) :
    List.Forall₂ (chunkFrameR documentId force) db.chunks
      (db.chunks.map (updRow ups)) := by
  rw [List.forall₂_map_right_iff]
  rw [List.forall₂_same]
  intro o ho
  obtain ⟨f1, f2, f3, f4, f5, f6, f7⟩ := updRow_fields ups o
  refine ⟨f1, f2, f3, f4, f5, f6, f7, ?_⟩
  by_cases hemb : (updRow ups o).embedding = o.embedding
  · exact Or.inl hemb
  · right
    have hex : ¬ ∀ iv ∈ ups, iv.1 ≠ o.id := by
      intro hall
      exact hemb (by rw [updRow_of_not_target ups o hall])
    push_neg at hex
    obtain ⟨iv, hiv, hivid⟩ := hex
    obtain ⟨o', ho', hid', hdoc', hsel'⟩ := hups iv hiv
    have : o' = o := by
      have hinj := List.inj_on_of_nodup_map hids
      exact hinj ho' ho (by rw [hid', hivid])
    rw [← this]
    exact ⟨hdoc', hsel'⟩

theorem mem_getDocumentChunksDb {db : DB} {i : ℕ} {ch : ChunkRow}
    (h : ch ∈ getDocumentChunksDb db i) : ch ∈ db.chunks ∧ ch.document_id = i := by
  rw [getDocumentChunksDb, mem_sortByB] at h
  have := List.mem_filter.mp h
  exact ⟨this.1, by simpa using this.2⟩

theorem mem_chunksToUpdateOf {db : DB} {documentId : ℕ} {force : Bool} {ch : ChunkRow}
    (h : ch ∈ chunksToUpdateOf db documentId force) :
    ch ∈ db.chunks ∧ ch.document_id = documentId ∧
      (force = true ∨ chunkNeedsEmbedding ch = true) := by
  rw [chunksToUpdateOf] at h
  by_cases hf : force = true
  · rw [if_pos hf] at h
    have := mem_getDocumentChunksDb h
    exact ⟨this.1, this.2, Or.inl hf⟩
  · rw [if_neg hf] at h
    have hm := List.mem_filter.mp h
    have := mem_getDocumentChunksDb hm.1
    exact ⟨this.1, this.2, Or.inr hm.2⟩

theorem updateEmbeddingsSvc_frame (db : DB) (p : Provider) (c documentId : ℕ) (force : Bool)
    (hids : (db.chunks.map ChunkRow.id).Nodup) :
    ((updateEmbeddingsSvc db p c documentId force).2.1).documents = db.documents ∧
    List.Forall₂ (chunkFrameR documentId force) db.chunks
      ((updateEmbeddingsSvc db p c documentId force).2.1).chunks := by
  rw [updateEmbeddingsSvc]
  by_cases h0 : (getDocumentChunksDb db documentId).isEmpty
  · rw [if_pos h0]
    exact ⟨rfl, forall₂_frame_refl documentId force db.chunks⟩
  · rw [if_neg h0]
    by_cases h1 : (chunksToUpdateOf db documentId force).isEmpty
    · rw [if_pos h1]
      exact ⟨rfl, forall₂_frame_refl documentId force db.chunks⟩
    · rw [if_neg h1]
      rcases hres : generateEmbeddings ((chunksToUpdateOf db documentId force).map
          fun ch => ⟨ch.content, ch.chunk_index⟩) {} p c with ⟨res, c2, ds⟩
      cases res with
      | error e =>
          refine ⟨?_, ?_⟩
          · simp only [hres]
          · simp only [hres]
            exact forall₂_frame_refl documentId force db.chunks
      | ok batchResult =>
          simp only [hres]
          have hups : ∀ iv ∈ List.zipWith (fun (ch : ChunkRow) (er : EmbeddingResult) =>
              (ch.id, er.embedding)) (chunksToUpdateOf db documentId force)
              batchResult.embeddings,
              ∃ o ∈ db.chunks, o.id = iv.1 ∧ o.document_id = documentId ∧
                (force = true ∨ chunkNeedsEmbedding o = true) := by
            intro iv hiv
            obtain ⟨ch, er, hch, _, hiveq⟩ := mem_zipWith_elim hiv
            obtain ⟨hm, hdid, hsel⟩ := mem_chunksToUpdateOf hch
            exact ⟨ch, hm, by rw [hiveq], hdid, hsel⟩
          have hframe := frame_of_updates hids hups
          rw [← applyEmbeddingUpdates_eq_map] at hframe
          split
          · exact ⟨rfl, hframe⟩
          · exact ⟨rfl, hframe⟩

/-! ## Lemmas about the embedding retry loop -/

theorem attemptBody_provider_error {chunks : List ChunkIn} {model : String} {p : Provider}
    {c : ℕ} {inputs : List (List Char)} {e : String}
    (hval : chunks.mapM (fun ch => validateAndTruncateText ch.content) = .ok inputs)
    (hp : p model c inputs = .error e) :
    attemptBody chunks model p c = (.error e, c + 1) := by
  rw [attemptBody, hval]
  simp only [hp]

theorem attemptBody_provider_ok {chunks : List ChunkIn} {model : String} {p : Provider}
    {c : ℕ} {inputs : List (List Char)} {resp : ProviderResponse}
    (hval : chunks.mapM (fun ch => validateAndTruncateText ch.content) = .ok inputs)
    (hp : p model c inputs = .ok resp) :
    attemptBody chunks model p c =
      (.ok (mkEmbeddings resp chunks, resp.total_tokens), c + 1) := by
  rw [attemptBody, hval]
  simp only [hp]

theorem retryDelays_shift (rd attempt k : ℕ) :
    rd * attempt :: (List.range k).map (fun i => rd * (attempt + 1 + i)) =
      (List.range (k + 1)).map (fun i => rd * (attempt + i)) := by
  rw [List.range_succ_eq_map, List.map_cons, List.map_map]
  refine congrArg₂ _ (by simp) ?_
  apply List.map_congr_left
  intro i _
  simp only [Function.comp]
  congr 1
  omega

theorem processBatchLoop_ok_after {chunks : List ChunkIn} {model : String} {rd : ℕ}
    {p : Provider} {inputs : List (List Char)} {resp : ProviderResponse}
    (hval : chunks.mapM (fun ch => validateAndTruncateText ch.content) = .ok inputs) :
    ∀ (k remaining c attempt : ℕ) (es : ℕ → String), k < remaining →
      (∀ i, i < k → p model (c + i) inputs = .error (es i)) →
      p model (c + k) inputs = .ok resp →
      processBatchLoop chunks model rd p remaining c attempt =
        (.ok (mkEmbeddings resp chunks, resp.total_tokens), c + k + 1,
          (List.range k).map (fun i => rd * (attempt + i))) := by
  intro k
  induction k with
  | zero =>
      intro remaining c attempt es hrem _ hsucc
      cases remaining with
      | zero => omega
      | succ r =>
          rw [processBatchLoop, attemptBody_provider_ok hval (by simpa using hsucc)]
          simp
  | succ k ih =>
      intro remaining c attempt es hrem hfail hsucc
      cases remaining with
      | zero => omega
      | succ r =>
          rw [processBatchLoop, attemptBody_provider_error hval
            (by simpa using hfail 0 (by omega))]
          simp only [if_neg (by omega : ¬ r = 0)]
          rw [ih r (c + 1) (attempt + 1) (fun i => es (i + 1)) (by omega)
            (fun i hi => by
              have := hfail (i + 1) (by omega)
              simpa [Nat.add_assoc, Nat.add_comm 1 i] using this)
            (by
              have := hsucc
              simpa [Nat.add_assoc, Nat.add_comm 1 k] using this)]
          simp only [Prod.mk.injEq]
          refine ⟨?_, ?_, ?_⟩
          · simp
          · omega
          · exact retryDelays_shift rd attempt k

theorem processBatchLoop_all_fail {chunks : List ChunkIn} {model : String} {rd : ℕ}
    {p : Provider} {inputs : List (List Char)}
    (hval : chunks.mapM (fun ch => validateAndTruncateText ch.content) = .ok inputs) :
    ∀ (remaining c attempt : ℕ) (es : ℕ → String), 0 < remaining →
      (∀ i, i < remaining → p model (c + i) inputs = .error (es i)) →
      processBatchLoop chunks model rd p remaining c attempt =
        (.error (es (remaining - 1)), c + remaining,
          (List.range (remaining - 1)).map (fun i => rd * (attempt + i))) := by
  intro remaining
  induction remaining with
  | zero => intro c attempt es h; omega
  | succ r ih =>
      intro c attempt es _ hfail
      rw [processBatchLoop, attemptBody_provider_error hval (by simpa using hfail 0 (by omega))]
      cases r with
      | zero => simp
      | succ r' =>
          simp only [if_neg (by omega : ¬ r' + 1 = 0)]
          rw [ih (c + 1) (attempt + 1) (fun i => es (i + 1)) (by omega)
            (fun i hi => by
              have := hfail (i + 1) (by omega)
              simpa [Nat.add_assoc, Nat.add_comm 1 i] using this)]
          simp only [Prod.mk.injEq, Nat.succ_sub_one, Nat.add_sub_cancel]
          refine ⟨?_, ?_, ?_⟩
          · simp
          · omega
          · exact retryDelays_shift rd attempt r'

theorem processBatch_ok_after {chunks : List ChunkIn} {model : String} {ra rd : ℕ}
    {p : Provider} {inputs : List (List Char)} {resp : ProviderResponse} {k c : ℕ}
    (es : ℕ → String)
    (hval : chunks.mapM (fun ch => validateAndTruncateText ch.content) = .ok inputs)
    (hk : k < ra)
    (hfail : ∀ i, i < k → p model (c + i) inputs = .error (es i))
    (hsucc : p model (c + k) inputs = .ok resp) :
    processBatch chunks model ra rd p c =
      (.ok (mkEmbeddings resp chunks, resp.total_tokens), c + k + 1,
        (List.range k).map (fun i => rd * (1 + i))) :=
  processBatchLoop_ok_after hval k ra c 1 es hk hfail hsucc

theorem processBatch_all_fail {chunks : List ChunkIn} {model : String} {ra rd : ℕ}
    {p : Provider} {inputs : List (List Char)} {c : ℕ} (es : ℕ → String)
    (hval : chunks.mapM (fun ch => validateAndTruncateText ch.content) = .ok inputs)
    (hra : 0 < ra)
    (hfail : ∀ i, i < ra → p model (c + i) inputs = .error (es i)) :
    processBatch chunks model ra rd p c =
      (.error (es (ra - 1)), c + ra, (List.range (ra - 1)).map (fun i => rd * (1 + i))) :=
  processBatchLoop_all_fail hval ra c 1 es hra hfail

theorem generateEmbeddings_single_batch_ok {chunksIn : List ChunkIn} {bs : ℕ} {model : String}
    {ra rd : ℕ} {p : Provider} {inputs : List (List Char)} {resp : ProviderResponse}
    {k c : ℕ} (es : ℕ → String)
    (hne : validateChunks chunksIn ≠ [])
    (hfit : (validateChunks chunksIn).length ≤ min bs maxBatchSize)
    (hbs0 : ¬ min bs maxBatchSize = 0)
    (hval : (validateChunks chunksIn).mapM (fun ch => validateAndTruncateText ch.content) =
      .ok inputs)
    (hk : k < ra)
    (hfail : ∀ i, i < k → p model (c + i) inputs = .error (es i))
    (hsucc : p model (c + k) inputs = .ok resp) :
    generateEmbeddings chunksIn ⟨some bs, some model, some ra, some rd⟩ p c =
      (.ok { embeddings := mkEmbeddings resp (validateChunks chunksIn)
             totalTokens := resp.total_tokens
             cost := calculateCost resp.total_tokens },
        c + k + 1, (List.range k).map (fun i => rd * (1 + i))) := by
  rw [generateEmbeddings]
  simp only [Option.getD_some]
  rw [if_neg (by simpa [List.length_eq_zero] using hne)]
  cases hvc : validateChunks chunksIn with
  | nil => exact absurd hvc hne
  | cons vh vt =>
      rw [hvc] at hval hfit
      rw [List.length_cons, genLoop]
      rw [if_neg hbs0]
      have htake : List.take (min bs maxBatchSize) (vh :: vt) = vh :: vt := by
        apply List.take_of_length_le
        exact hfit
      have hdrop : List.drop (min bs maxBatchSize) (vh :: vt) = [] := by
        apply List.drop_eq_nil_of_le
        exact hfit
      rw [htake, hdrop]
      simp only [processBatch_ok_after es hval hk hfail hsucc]
      simp [genLoop]

theorem generateEmbeddings_single_batch_exhausted {chunksIn : List ChunkIn} {bs : ℕ}
    {model : String} {ra rd : ℕ} {q : Provider} {inputs : List (List Char)} {c : ℕ}
    (es : ℕ → String)
    (hne : validateChunks chunksIn ≠ [])
    (hfit : (validateChunks chunksIn).length ≤ min bs maxBatchSize)
    (hbs0 : ¬ min bs maxBatchSize = 0)
    (hval : (validateChunks chunksIn).mapM (fun ch => validateAndTruncateText ch.content) =
      .ok inputs)
    (hra : 0 < ra)
    (hfail : ∀ i, i < ra → q model (c + i) inputs = .error (es i)) :
    generateEmbeddings chunksIn ⟨some bs, some model, some ra, some rd⟩ q c =
      (.error ("Embedding generation failed: " ++ es (ra - 1)), c + ra,
        (List.range (ra - 1)).map (fun i => rd * (1 + i))) := by
  rw [generateEmbeddings]
  simp only [Option.getD_some]
  rw [if_neg (by simpa [List.length_eq_zero] using hne)]
  cases hvc : validateChunks chunksIn with
  | nil => exact absurd hvc hne
  | cons vh vt =>
      rw [hvc] at hval hfit
      rw [List.length_cons, genLoop]
      rw [if_neg hbs0]
      have htake : List.take (min bs maxBatchSize) (vh :: vt) = vh :: vt :=
        List.take_of_length_le hfit
      have hdrop : List.drop (min bs maxBatchSize) (vh :: vt) = [] :=
        List.drop_eq_nil_of_le hfit
      rw [htake, hdrop]
      simp only [processBatch_all_fail es hval hra hfail]

theorem generateEmbeddings_second_batch_exhausted {chunksIn : List ChunkIn} {bs : ℕ}
    {model : String} {ra rd : ℕ} {r : Provider} {inputs1 inputs2 : List (List Char)}
    {resp : ProviderResponse} {c : ℕ} (es : ℕ → String) ( _e1 : String)
    (hbs0 : ¬ min bs maxBatchSize = 0)
    (hlen : min bs maxBatchSize < (validateChunks chunksIn).length)
    (hval1 : ((validateChunks chunksIn).take (min bs maxBatchSize)).mapM
      (fun ch => validateAndTruncateText ch.content) = .ok inputs1)
    (hval2 : (((validateChunks chunksIn).drop (min bs maxBatchSize)).take
      (min bs maxBatchSize)).mapM (fun ch => validateAndTruncateText ch.content) = .ok inputs2)
    (hr1 : r model c inputs1 = .ok resp)
    (hra : 0 < ra)
    (hr2 : ∀ i, i < ra → r model (c + 1 + i) inputs2 = .error (es i)) :
    (generateEmbeddings chunksIn ⟨some bs, some model, some ra, some rd⟩ r c).1 =
      .error ("Embedding generation failed: " ++ es (ra - 1)) := by
  rw [generateEmbeddings]
  simp only [Option.getD_some]
  rw [if_neg (by omega : ¬ (validateChunks chunksIn).length = 0)]
  cases hvc : validateChunks chunksIn with
  | nil => rw [hvc] at hlen; simp at hlen
  | cons vh vt =>
      rw [hvc] at hval1 hval2 hlen
      rw [List.length_cons] at hlen
      rw [List.length_cons, genLoop]
      rw [if_neg hbs0]
      have hsucc1 : processBatch (List.take (min bs maxBatchSize) (vh :: vt)) model ra rd r c =
          (.ok (mkEmbeddings resp (List.take (min bs maxBatchSize) (vh :: vt)),
            resp.total_tokens), c + 0 + 1, []) := by
        have h0 := @processBatch_ok_after (List.take (min bs maxBatchSize) (vh :: vt)) model
          ra rd r inputs1 resp 0 c es hval1 hra (fun i hi => absurd hi (by omega))
          (by simpa using hr1)
        simpa using h0
      simp only [hsucc1]
      have hrest : List.drop (min bs maxBatchSize) (vh :: vt) ≠ [] := by
        rw [Ne, List.drop_eq_nil_iff]
        intro hcon
        rw [List.length_cons] at hcon
        omega
      cases hrd : List.drop (min bs maxBatchSize) (vh :: vt) with
      | nil => exact absurd hrd hrest
      | cons rh rt =>
          rw [hrd] at hval2
          have hfuel : ∃ f, vt.length = f + 1 := by
            have := congrArg List.length hrd
            simp only [List.length_drop, List.length_cons] at this
            refine ⟨vt.length - 1, ?_⟩
            omega
          obtain ⟨f, hf⟩ := hfuel
          rw [hf, genLoop]
          rw [if_neg hbs0]
          have hexh : processBatch (List.take (min bs maxBatchSize) (rh :: rt)) model ra rd r
              (c + 0 + 1) =
              (.error (es (ra - 1)), c + 0 + 1 + ra,
                (List.range (ra - 1)).map (fun i => rd * (1 + i))) := by
            apply processBatch_all_fail es hval2 hra
            intro i hi
            have := hr2 i hi
            simpa [Nat.add_assoc] using this
          simp only [hexh]

/-! ## Lemmas about the search score rounding -/

theorem round4_lt (q : ℚ) : q - 1 / 20000 < round4 q := by
  rw [round4, lt_div_iff₀ (by norm_num : (0 : ℚ) < 10000)]
  have h := Int.sub_one_lt_floor (q * 10000 + 1 / 2)
  calc (q - 1 / 20000) * 10000 = q * 10000 + 1 / 2 - 1 := by ring
  _ < (⌊q * 10000 + 1 / 2⌋ : ℚ) := h

theorem round4_mono {q p : ℚ} (h : q ≤ p) : round4 q ≤ round4 p := by
  rw [round4, round4]
  have h1 : ⌊q * 10000 + 1 / 2⌋ ≤ ⌊p * 10000 + 1 / 2⌋ := Int.floor_mono (by linarith)
  gcongr

/-! ## Claim theorems -/

/-- C1: processDocument is idempotent on content.  Starting from a store
with no document carrying this owner and content hash, a first upload
followed by a second whose file bytes hash identically makes the second
call return the already-stored document (a row of the store after the first
call, carrying that hash and owner, with the same document id as the first
call returned), as a success, while leaving the store and the provider call
counter exactly as they were after the first call: no new document row and
no new chunk rows. -/
theorem processDocument_dedup_idempotent (env : PipelineEnv) (db : DB) (c : ℕ)
    (fp1 fp2 on1 on2 : List Char) (userId : ℕ) (mt1 mt2 : List Char) (fs1 fs2 : ℕ)
    (t1 t2 : Option (List Char)) (po1 po2 : DocumentProcessingOptions)
    (hsame : env.hashAt fp2 = env.hashAt fp1)
    (hfresh : ∀ d ∈ db.documents,
      ¬(d.content_hash = env.hashAt fp1 ∧ d.user_id = userId)) :
    ∃ d : Doc,
      d ∈ (processDocument env db c fp1 on1 userId mt1 fs1 t1 po1).2.1.documents ∧
      d.content_hash = env.hashAt fp1 ∧
      d.user_id = userId ∧
      d.id = (processDocument env db c fp1 on1 userId mt1 fs1 t1 po1).1.document.id ∧
      processDocument env (processDocument env db c fp1 on1 userId mt1 fs1 t1 po1).2.1
          (processDocument env db c fp1 on1 userId mt1 fs1 t1 po1).2.2 fp2 on2 userId mt2
          fs2 t2 po2 =
        (⟨d, none, true, none, none⟩,
         (processDocument env db c fp1 on1 userId mt1 fs1 t1 po1).2.1,
         (processDocument env db c fp1 on1 userId mt1 fs1 t1 po1).2.2) := by
  have hnone : findDocumentByHash db (env.hashAt fp1) userId = none :=
    find?_docMatch_eq_none hfresh
  obtain ⟨g, hg, hdocs, hid⟩ := processDocument_post env db c fp1 on1 userId mt1 fs1 t1
    po1 hnone
  have hfind : findDocumentByHash
      (processDocument env db c fp1 on1 userId mt1 fs1 t1 po1).2.1 (env.hashAt fp1) userId =
      some (g (createDocumentRecord db fp1 on1 userId mt1 fs1 (env.hashAt fp1) t1).1) :=
    findDocumentByHash_after _ _ hdocs hg hfresh rfl rfl
  refine ⟨g (createDocumentRecord db fp1 on1 userId mt1 fs1 (env.hashAt fp1) t1).1,
    ?_, ?_, ?_, ?_, ?_⟩
  · rw [hdocs, List.map_append]
    exact List.mem_append_right _ (by simp)
  · exact (hg _).1
  · exact (hg _).2.1
  · rw [(hg _).2.2, hid]
    rfl
  · rw [processDocument, hsame, hfind]

/-- C1 witness: a concrete environment and an empty store satisfying the
hypotheses of the dedup idempotence theorem. -/
theorem processDocument_dedup_idempotent_witness :
    ((⟨fun _ => 42, fun _ _ => .error "nope", providerAlwaysFail⟩ :
        PipelineEnv).hashAt ['b'] =
      (⟨fun _ => 42, fun _ _ => .error "nope", providerAlwaysFail⟩ :
        PipelineEnv).hashAt ['a'] ∧
     ∀ d ∈ (⟨[], [], 0, 0⟩ : DB).documents,
      ¬(d.content_hash = (⟨fun _ => 42, fun _ _ => .error "nope", providerAlwaysFail⟩ :
        PipelineEnv).hashAt ['a'] ∧ d.user_id = 7)) ∧
    ∃ d : Doc,
      d ∈ (processDocument ⟨fun _ => 42, fun _ _ => .error "nope", providerAlwaysFail⟩
        ⟨[], [], 0, 0⟩ 0 ['a'] ['a'] 7 ['m'] 1 none {}).2.1.documents ∧
      d.content_hash = 42 ∧
      d.user_id = 7 ∧
      d.id = (processDocument ⟨fun _ => 42, fun _ _ => .error "nope", providerAlwaysFail⟩
        ⟨[], [], 0, 0⟩ 0 ['a'] ['a'] 7 ['m'] 1 none {}).1.document.id ∧
      processDocument ⟨fun _ => 42, fun _ _ => .error "nope", providerAlwaysFail⟩
          (processDocument ⟨fun _ => 42, fun _ _ => .error "nope", providerAlwaysFail⟩
            ⟨[], [], 0, 0⟩ 0 ['a'] ['a'] 7 ['m'] 1 none {}).2.1
          (processDocument ⟨fun _ => 42, fun _ _ => .error "nope", providerAlwaysFail⟩
            ⟨[], [], 0, 0⟩ 0 ['a'] ['a'] 7 ['m'] 1 none {}).2.2 ['b'] ['b'] 7 ['m'] 1
          none {} =
        (⟨d, none, true, none, none⟩,
         (processDocument ⟨fun _ => 42, fun _ _ => .error "nope", providerAlwaysFail⟩
            ⟨[], [], 0, 0⟩ 0 ['a'] ['a'] 7 ['m'] 1 none {}).2.1,
         (processDocument ⟨fun _ => 42, fun _ _ => .error "nope", providerAlwaysFail⟩
            ⟨[], [], 0, 0⟩ 0 ['a'] ['a'] 7 ['m'] 1 none {}).2.2) :=
  ⟨⟨rfl, by simp⟩,
   processDocument_dedup_idempotent ⟨fun _ => 42, fun _ _ => .error "nope",
     providerAlwaysFail⟩ ⟨[], [], 0, 0⟩ 0 ['a'] ['b'] ['a'] ['b'] 7 ['m'] ['m'] 1 1
     none none {} {} rfl (by simp)⟩

/-- C4: the embedding retry behaviour.  With explicit retryAttempts and
retryDelay, a single batch whose provider fails the first k attempts and
succeeds on attempt k plus one yields a success with the aggregated token
count of the provider response, after sleeping retryDelay times the attempt
number between attempts; a provider that exhausts all retryAttempts
attempts makes the whole call fail with the wrapped error of the last
attempt and no partial result; and with two batches where the first
succeeds and the second exhausts its attempts, the whole call still fails,
discarding the first batch from the caller's perspective. -/
theorem generateEmbeddings_retry_spec {bs : ℕ} {model : String} {ra rd k c : ℕ}
    {p q r : Provider} {chunksIn chunksIn2 : List ChunkIn}
    {inputs inputs1 inputs2 : List (List Char)} {resp : ProviderResponse}
    (es : ℕ → String)
    (hne : validateChunks chunksIn ≠ [])
    (hfit : (validateChunks chunksIn).length ≤ min bs maxBatchSize)
    (hbs0 : ¬ min bs maxBatchSize = 0)
    (hval : (validateChunks chunksIn).mapM (fun ch => validateAndTruncateText ch.content) =
      .ok inputs)
    (hk : k < ra)
    (hra : 0 < ra)
    (hfail : ∀ i, i < k → p model (c + i) inputs = .error (es i))
    (hsucc : p model (c + k) inputs = .ok resp)
    (hqfail : ∀ i, i < ra → q model (c + i) inputs = .error (es i))
    (hlen2 : min bs maxBatchSize < (validateChunks chunksIn2).length)
    (hval1 : ((validateChunks chunksIn2).take (min bs maxBatchSize)).mapM
      (fun ch => validateAndTruncateText ch.content) = .ok inputs1)
    (hval2 : (((validateChunks chunksIn2).drop (min bs maxBatchSize)).take
      (min bs maxBatchSize)).mapM (fun ch => validateAndTruncateText ch.content) = .ok inputs2)
    (hr1 : r model c inputs1 = .ok resp)
    (hr2 : ∀ i, i < ra → r model (c + 1 + i) inputs2 = .error (es i)) :
    generateEmbeddings chunksIn ⟨some bs, some model, some ra, some rd⟩ p c =
      (.ok { embeddings := mkEmbeddings resp (validateChunks chunksIn)
             totalTokens := resp.total_tokens
             cost := calculateCost resp.total_tokens },
        c + k + 1, (List.range k).map (fun i => rd * (1 + i))) ∧
    generateEmbeddings chunksIn ⟨some bs, some model, some ra, some rd⟩ q c =
      (.error ("Embedding generation failed: " ++ es (ra - 1)), c + ra,
        (List.range (ra - 1)).map (fun i => rd * (1 + i))) ∧
    (generateEmbeddings chunksIn2 ⟨some bs, some model, some ra, some rd⟩ r c).1 =
      .error ("Embedding generation failed: " ++ es (ra - 1)) :=
  ⟨generateEmbeddings_single_batch_ok es hne hfit hbs0 hval hk hfail hsucc,
   generateEmbeddings_single_batch_exhausted es hne hfit hbs0 hval hra hqfail,
   generateEmbeddings_second_batch_exhausted es "" hbs0 hlen2 hval1 hval2 hr1 hra hr2⟩

/-- C4 witness: the concrete fails-twice-then-succeeds-on-the-third-attempt
scenario with three retry attempts, together with the all-fail and the
second-batch-fails scenarios, at batch size one. -/
theorem generateEmbeddings_retry_spec_witness :
    (validateChunks [⟨"hello".toList, 0⟩] ≠ [] ∧
     (validateChunks [⟨"hello".toList, 0⟩]).length ≤ min 1 maxBatchSize ∧
     ¬ min 1 maxBatchSize = 0 ∧
     (validateChunks [⟨"hello".toList, 0⟩]).mapM
       (fun ch => validateAndTruncateText ch.content) = .ok ["hello".toList] ∧
     (2 : ℕ) < 3 ∧ (0 : ℕ) < 3 ∧
     (∀ i, i < 2 → providerFailTwice "text-embedding-ada-002" (0 + i) ["hello".toList] =
       .error "boom") ∧
     providerFailTwice "text-embedding-ada-002" (0 + 2) ["hello".toList] = .ok ⟨[[1]], 7⟩ ∧
     (∀ i, i < 3 → providerAlwaysFail "text-embedding-ada-002" (0 + i) ["hello".toList] =
       .error "boom") ∧
     min 1 maxBatchSize <
       (validateChunks [⟨"hello".toList, 0⟩, ⟨"world".toList, 1⟩]).length ∧
     ((validateChunks [⟨"hello".toList, 0⟩, ⟨"world".toList, 1⟩]).take
       (min 1 maxBatchSize)).mapM (fun ch => validateAndTruncateText ch.content) =
       .ok ["hello".toList] ∧
     (((validateChunks [⟨"hello".toList, 0⟩, ⟨"world".toList, 1⟩]).drop
       (min 1 maxBatchSize)).take (min 1 maxBatchSize)).mapM
       (fun ch => validateAndTruncateText ch.content) = .ok ["world".toList] ∧
     providerOkThenFail "text-embedding-ada-002" 0 ["hello".toList] = .ok ⟨[[1]], 7⟩ ∧
     (∀ i, i < 3 → providerOkThenFail "text-embedding-ada-002" (0 + 1 + i)
       ["world".toList] = .error "boom")) ∧
    (generateEmbeddings [⟨"hello".toList, 0⟩]
        ⟨some 1, some "text-embedding-ada-002", some 3, some 1000⟩ providerFailTwice 0 =
      (.ok { embeddings := mkEmbeddings ⟨[[1]], 7⟩ (validateChunks [⟨"hello".toList, 0⟩])
             totalTokens := (7 : ℕ)
             cost := calculateCost 7 },
        0 + 2 + 1, (List.range 2).map (fun i => 1000 * (1 + i))) ∧
     generateEmbeddings [⟨"hello".toList, 0⟩]
        ⟨some 1, some "text-embedding-ada-002", some 3, some 1000⟩ providerAlwaysFail 0 =
      (.error ("Embedding generation failed: " ++ "boom"), 0 + 3,
        (List.range (3 - 1)).map (fun i => 1000 * (1 + i))) ∧
     (generateEmbeddings [⟨"hello".toList, 0⟩, ⟨"world".toList, 1⟩]
        ⟨some 1, some "text-embedding-ada-002", some 3, some 1000⟩ providerOkThenFail 0).1 =
      .error ("Embedding generation failed: " ++ "boom")) := by
  refine ⟨⟨by decide, by decide, by decide, rfl, by decide, by decide,
    ?_, rfl, ?_, by decide, rfl, rfl, rfl, ?_⟩, ?_⟩
  · intro i hi
    interval_cases i <;> rfl
  · intro i hi
    rfl
  · intro i hi
    show (if 0 + 1 + i = 0 then _ else _) = _
    rw [if_neg (by omega)]
  · exact @generateEmbeddings_retry_spec 1 "text-embedding-ada-002" 3 1000 2 0
      providerFailTwice providerAlwaysFail providerOkThenFail
      [⟨"hello".toList, 0⟩] [⟨"hello".toList, 0⟩, ⟨"world".toList, 1⟩]
      ["hello".toList] ["hello".toList] ["world".toList] ⟨[[1]], 7⟩ (fun _ => "boom")
      (by decide) (by decide) (by decide) rfl (by decide)
      (by decide) (fun i hi => by interval_cases i <;> rfl) rfl (fun i hi => rfl) (by decide)
      rfl rfl rfl (fun i hi => by
        show (if 0 + 1 + i = 0 then _ else _) = _
        rw [if_neg (by omega)])

/-- C5: when embeddings are requested and the embedding step fails, the
pipeline persists no chunk rows (the chunk table is exactly what it was, and
the query for this document's chunks returns nothing), marks the created
document failed, and returns a structured result with success false and the
error message, rather than propagating the failure. -/
theorem processDocument_embedding_failure_spec (env : PipelineEnv) (db : DB) (c : ℕ)
    (filePath originalName : List Char) (userId : ℕ) (mimeType : List Char)
    (fileSize : ℕ) (title : Option (List Char)) (popts : DocumentProcessingOptions)
    (content : List Char) (e : String)
    (hfresh : ∀ d ∈ db.documents,
      ¬(d.content_hash = env.hashAt filePath ∧ d.user_id = userId))
    (hchfresh : ∀ ch ∈ db.chunks, ch.document_id ≠ db.nextDocId)
    (hgen : popts.generateEmbeddings.getD true = true)
    (hext : env.extractAt filePath mimeType = .ok content)
    (hT : (jsTrim content).length ≠ 0)
    (hC : (chunkText content (mergeChunkOpts popts.chunkOptions)).length ≠ 0)
    (hE : (generateEmbeddings ((chunkText content (mergeChunkOpts popts.chunkOptions)).map
      toChunkIn) {} env.provider c).1 = .error e) :
    (processDocument env db c filePath originalName userId mimeType fileSize title
      popts).1.success = false ∧
    (processDocument env db c filePath originalName userId mimeType fileSize title
      popts).1.error = some e ∧
    (processDocument env db c filePath originalName userId mimeType fileSize title
      popts).1.chunks = none ∧
    (processDocument env db c filePath originalName userId mimeType fileSize title
      popts).2.1.chunks = db.chunks ∧
    (∀ d ∈ (processDocument env db c filePath originalName userId mimeType fileSize title
      popts).2.1.documents, d.id = db.nextDocId → d.processing_status = .failed) ∧
    getDocumentChunksDb (processDocument env db c filePath originalName userId mimeType
      fileSize title popts).2.1
      (processDocument env db c filePath originalName userId mimeType fileSize title
        popts).1.document.id = [] := by
  have hnone : findDocumentByHash db (env.hashAt filePath) userId = none :=
    find?_docMatch_eq_none hfresh
  have hGE : generateEmbeddings ((chunkText content (mergeChunkOpts popts.chunkOptions)).map
      toChunkIn) {} env.provider c =
      (.error e,
       (generateEmbeddings ((chunkText content (mergeChunkOpts popts.chunkOptions)).map
         toChunkIn) {} env.provider c).2.1,
       (generateEmbeddings ((chunkText content (mergeChunkOpts popts.chunkOptions)).map
         toChunkIn) {} env.provider c).2.2) := by
    rw [← hE]
  have hred : processDocument env db c filePath originalName userId mimeType fileSize title
      popts =
      (failResult (createDocumentRecord db filePath originalName userId mimeType fileSize
        (env.hashAt filePath) title).1 e,
       updateDocumentStatus (updateDocumentStatus (createDocumentRecord db filePath
         originalName userId mimeType fileSize (env.hashAt filePath) title).2
         (createDocumentRecord db filePath originalName userId mimeType fileSize
           (env.hashAt filePath) title).1.id .processing)
         (createDocumentRecord db filePath originalName userId mimeType fileSize
           (env.hashAt filePath) title).1.id .failed,
       (generateEmbeddings ((chunkText content (mergeChunkOpts popts.chunkOptions)).map
         toChunkIn) {} env.provider c).2.1) := by
    rw [processDocument, hnone]
    simp only [hext]
    rw [if_neg hT, if_neg hC, if_pos hgen, hGE]
  refine ⟨by rw [hred]; rfl, by rw [hred]; rfl, by rw [hred]; rfl, by rw [hred]; rfl, ?_, ?_⟩
  · rw [hred]
    simp only
    rw [documents_updateDocumentStatus]
    exact statusUpdater_sets _ _
  · rw [hred]
    simp only [getDocumentChunksDb]
    have hch : (updateDocumentStatus (updateDocumentStatus (createDocumentRecord db filePath
        originalName userId mimeType fileSize (env.hashAt filePath) title).2
        (createDocumentRecord db filePath originalName userId mimeType fileSize
          (env.hashAt filePath) title).1.id .processing)
        (createDocumentRecord db filePath originalName userId mimeType fileSize
          (env.hashAt filePath) title).1.id .failed).chunks = db.chunks := rfl
    rw [hch]
    have : db.chunks.filter (fun ch => decide (ch.document_id =
        (failResult (createDocumentRecord db filePath originalName userId mimeType fileSize
          (env.hashAt filePath) title).1 e).document.id)) = [] := by
      rw [List.filter_eq_nil_iff]
      intro ch hch2
      simpa using hchfresh ch hch2
    rw [this]
    rfl

set_option maxRecDepth 20000 in
/-- C5 witness: a fresh store and an always-failing provider over 120
characters of extracted text realise the embedding-failure scenario. -/
theorem processDocument_embedding_failure_spec_witness :
    ((∀ d ∈ dbEmpty.documents,
        ¬(d.content_hash = envC5.hashAt ['f'] ∧ d.user_id = 7)) ∧
     (∀ ch ∈ dbEmpty.chunks, ch.document_id ≠ dbEmpty.nextDocId) ∧
     ({} : DocumentProcessingOptions).generateEmbeddings.getD true = true ∧
     envC5.extractAt ['f'] ['m'] = .ok (List.replicate 120 'a') ∧
     (jsTrim (List.replicate 120 'a')).length ≠ 0 ∧
     (chunkText (List.replicate 120 'a')
       (mergeChunkOpts ({} : DocumentProcessingOptions).chunkOptions)).length ≠ 0 ∧
     (generateEmbeddings ((chunkText (List.replicate 120 'a')
       (mergeChunkOpts ({} : DocumentProcessingOptions).chunkOptions)).map
         toChunkIn) {} envC5.provider 0).1 =
       .error "Embedding generation failed: boom") ∧
    ((processDocument envC5 dbEmpty 0 ['f'] ['f'] 7 ['m'] 1 none {}).1.success = false ∧
     (processDocument envC5 dbEmpty 0 ['f'] ['f'] 7 ['m'] 1 none {}).1.error =
       some "Embedding generation failed: boom" ∧
     (processDocument envC5 dbEmpty 0 ['f'] ['f'] 7 ['m'] 1 none {}).1.chunks = none ∧
     (processDocument envC5 dbEmpty 0 ['f'] ['f'] 7 ['m'] 1 none {}).2.1.chunks =
       dbEmpty.chunks ∧
     (∀ d ∈ (processDocument envC5 dbEmpty 0 ['f'] ['f'] 7 ['m'] 1 none {}).2.1.documents,
       d.id = dbEmpty.nextDocId → d.processing_status = .failed) ∧
     getDocumentChunksDb (processDocument envC5 dbEmpty 0 ['f'] ['f'] 7 ['m'] 1 none
       {}).2.1
       (processDocument envC5 dbEmpty 0 ['f'] ['f'] 7 ['m'] 1 none {}).1.document.id =
       []) :=
  ⟨⟨by simp [dbEmpty], by simp [dbEmpty], rfl, rfl, by decide, by decide, rfl⟩,
   processDocument_embedding_failure_spec envC5 dbEmpty 0 ['f'] ['f'] 7 ['m'] 1 none {}
     (List.replicate 120 'a') "Embedding generation failed: boom"
     (by simp [dbEmpty]) (by simp [dbEmpty]) rfl rfl (by decide) (by decide) rfl⟩

/-- C6: chunk indices are contiguous from zero.  chunkText renumbers its
output so the indices are exactly the range of its length, and the pipeline
persists rows whose chunk_index values are exactly the range of the number
of persisted rows, provided no pre-existing chunk row sits under the
document id about to be allocated. -/
theorem chunk_indices_contiguous (env : PipelineEnv) (db : DB) (c : ℕ)
    (filePath originalName : List Char) (userId : ℕ) (mimeType : List Char)
    (fileSize : ℕ) (title : Option (List Char)) (popts : DocumentProcessingOptions)
    (hchfresh : ∀ ch ∈ db.chunks, ch.document_id ≠ db.nextDocId) :
    (∀ (text : List Char) (o : ChunkOptions),
      (chunkText text o).map TextChunk.chunk_index =
        List.range (chunkText text o).length) ∧
    ∀ l, (processDocument env db c filePath originalName userId mimeType fileSize title
        popts).1.chunks = some l →
      l.map ChunkRow.chunk_index = List.range l.length := by
  refine ⟨fun text o => chunkText_indices text o, ?_⟩
  intro l hl
  cases hF : findDocumentByHash db (env.hashAt filePath) userId with
  | some d =>
      rw [processDocument, hF] at hl
      exact absurd hl (by simp)
  | none =>
  cases hE : env.extractAt filePath mimeType with
  | error e =>
      simp only [processDocument, hF, hE] at hl
      exact absurd hl (by simp [failResult])
  | ok content =>
  by_cases hT : (jsTrim content).length = 0
  · rw [processDocument, hF] at hl
    simp only [hE] at hl
    rw [if_pos hT] at hl
    exact absurd hl (by simp [failResult])
  · by_cases hC : (chunkText content (mergeChunkOpts popts.chunkOptions)).length = 0
    · rw [processDocument, hF] at hl
      simp only [hE] at hl
      rw [if_neg hT, if_pos hC] at hl
      exact absurd hl (by simp [failResult])
    · by_cases hG : popts.generateEmbeddings.getD true = true
      · rcases hGE : generateEmbeddings ((chunkText content
            (mergeChunkOpts popts.chunkOptions)).map toChunkIn) {} env.provider c
          with ⟨res, c2, ds⟩
        cases res with
        | error e2 =>
            rw [processDocument, hF] at hl
            simp only [hE] at hl
            rw [if_neg hT, if_neg hC, if_pos hG] at hl
            simp only [hGE] at hl
            exact absurd hl (by simp [failResult])
        | ok embRes =>
            cases hS : storeEmbeddingsDb (updateDocumentStatus
                (createDocumentRecord db filePath originalName userId mimeType fileSize
                  (env.hashAt filePath) title).2
                (createDocumentRecord db filePath originalName userId mimeType fileSize
                  (env.hashAt filePath) title).1.id .processing)
                (createDocumentRecord db filePath originalName userId mimeType fileSize
                  (env.hashAt filePath) title).1.id
                ((chunkText content (mergeChunkOpts popts.chunkOptions)).map toStoredChunk)
                embRes.embeddings with
            | error e3 =>
                rw [processDocument, hF] at hl
                simp only [hE] at hl
                rw [if_neg hT, if_neg hC, if_pos hG] at hl
                simp only [hGE] at hl
                simp only [hS] at hl
                exact absurd hl (by simp [failResult])
            | ok db3 =>
                rw [processDocument, hF] at hl
                simp only [hE] at hl
                rw [if_neg hT, if_neg hC, if_pos hG] at hl
                simp only [hGE] at hl
                simp only [hS] at hl
                simp only [Option.some.injEq] at hl
                obtain ⟨rows, hrw, hidx, hdocid⟩ := storeEmbeddingsDb_ok_spec hS
                have hidx2 : rows.map ChunkRow.chunk_index =
                    List.range (chunkText content (mergeChunkOpts popts.chunkOptions)).length := by
                  rw [hidx, chs_map_index, chunkText_indices]
                have hglen : rows.length =
                    (chunkText content (mergeChunkOpts popts.chunkOptions)).length := by
                  have := congrArg List.length hidx2
                  simpa using this
                have hget : getDocumentChunksDb (updateDocumentProcessing db3
                    (createDocumentRecord db filePath originalName userId mimeType fileSize
                      (env.hashAt filePath) title).1.id .completed
                    (chunkText content (mergeChunkOpts popts.chunkOptions)).length)
                    (createDocumentRecord db filePath originalName userId mimeType fileSize
                      (env.hashAt filePath) title).1.id = rows := by
                  apply getDocumentChunksDb_append_fresh _ _ hchfresh hdocid hidx2
                  rw [show (updateDocumentProcessing db3 (createDocumentRecord db filePath
                    originalName userId mimeType fileSize (env.hashAt filePath) title).1.id
                    .completed (chunkText content
                      (mergeChunkOpts popts.chunkOptions)).length).chunks = db3.chunks from rfl]
                  exact hrw
                rw [hget] at hl
                rw [← hl, hidx2, hglen]
      · rcases storeChunksWithoutEmbeddings_spec (updateDocumentStatus
            (createDocumentRecord db filePath originalName userId mimeType fileSize
              (env.hashAt filePath) title).2
            (createDocumentRecord db filePath originalName userId mimeType fileSize
              (env.hashAt filePath) title).1.id .processing)
            (createDocumentRecord db filePath originalName userId mimeType fileSize
              (env.hashAt filePath) title).1.id
            ((chunkText content (mergeChunkOpts popts.chunkOptions)).map toStoredChunk)
          with ⟨rows, hrw, hidx, hdocid⟩
        rw [processDocument, hF] at hl
        simp only [hE] at hl
        rw [if_neg hT, if_neg hC, if_neg hG] at hl
        simp only [Option.some.injEq] at hl
        have hidx2 : rows.map ChunkRow.chunk_index =
            List.range (chunkText content (mergeChunkOpts popts.chunkOptions)).length := by
          rw [hidx, chs_map_index, chunkText_indices]
        have hglen : rows.length =
            (chunkText content (mergeChunkOpts popts.chunkOptions)).length := by
          have := congrArg List.length hidx2
          simpa using this
        have hget : getDocumentChunksDb (updateDocumentProcessing
            (storeChunksWithoutEmbeddings (updateDocumentStatus
              (createDocumentRecord db filePath originalName userId mimeType fileSize
                (env.hashAt filePath) title).2
              (createDocumentRecord db filePath originalName userId mimeType fileSize
                (env.hashAt filePath) title).1.id .processing)
              (createDocumentRecord db filePath originalName userId mimeType fileSize
                (env.hashAt filePath) title).1.id
              ((chunkText content (mergeChunkOpts popts.chunkOptions)).map toStoredChunk))
            (createDocumentRecord db filePath originalName userId mimeType fileSize
              (env.hashAt filePath) title).1.id .completed
            (chunkText content (mergeChunkOpts popts.chunkOptions)).length)
            (createDocumentRecord db filePath originalName userId mimeType fileSize
              (env.hashAt filePath) title).1.id = rows := by
          apply getDocumentChunksDb_append_fresh _ _ hchfresh hdocid hidx2
          exact hrw
        rw [hget] at hl
        rw [← hl, hidx2, hglen]

/-- C6 witness: on an empty store with a succeeding provider, the
contiguous-index property holds for the concrete pipeline run and for a
concrete chunkText call. -/
theorem chunk_indices_contiguous_witness :
    (∀ ch ∈ dbEmpty.chunks, ch.document_id ≠ dbEmpty.nextDocId) ∧
    ((chunkText ['a', 'b'] {}).map TextChunk.chunk_index =
      List.range (chunkText ['a', 'b'] {}).length) ∧
    ∀ l, (processDocument envC6 dbEmpty 0 ['f'] ['f'] 7 ['m'] 1 none {}).1.chunks =
        some l →
      l.map ChunkRow.chunk_index = List.range l.length :=
  ⟨by simp [dbEmpty],
   (chunk_indices_contiguous envC6 dbEmpty 0 ['f'] ['f'] 7 ['m'] 1 none {}
     (by simp [dbEmpty])).1 ['a', 'b'] {},
   (chunk_indices_contiguous envC6 dbEmpty 0 ['f'] ['f'] 7 ['m'] 1 none {}
     (by simp [dbEmpty])).2⟩

/-- C9: reprocessDocument fails with a status error when the document is not
completed and force is false; with force false and every chunk of the
document already embedded it returns success with zero updated chunks and
zero cost, leaving store and provider-call counter untouched; and in every
case the document rows are unchanged and every chunk row keeps all its
fields, with the embedding allowed to change only on selected rows of the
reprocessed document. -/
theorem reprocessDocument_gate_noop_frame (db : DB) (p : Provider)
    (c documentId userId : ℕ) (force : Bool) (d : Doc)
    (hids : (db.chunks.map ChunkRow.id).Nodup)
    (hfind : db.documents.find?
      (fun d0 => decide (d0.id = documentId) && decide (d0.user_id = userId)) = some d) :
    (d.processing_status ≠ .completed → force = false →
      reprocessDocument db p c documentId userId force =
        (.error "Document must be in completed status to reprocess", db, c)) ∧
    (d.processing_status = .completed →
      (∀ ch ∈ db.chunks, ch.document_id = documentId → chunkNeedsEmbedding ch = false) →
      reprocessDocument db p c documentId userId false =
        (.ok ⟨true, 0, 0⟩, db, c)) ∧
    ((reprocessDocument db p c documentId userId force).2.1).documents = db.documents ∧
    List.Forall₂ (chunkFrameR documentId force) db.chunks
      ((reprocessDocument db p c documentId userId force).2.1).chunks := by
  refine ⟨?_, ?_, ?_⟩
  · intro hi hf
    rw [reprocessDocument]
    simp only [hfind]
    rw [if_pos ⟨hi, hf⟩]
  · intro hd hall
    have hupd : updateEmbeddingsSvc db p c documentId false = (.ok ⟨0, 0⟩, db, c) := by
      rw [updateEmbeddingsSvc]
      by_cases h0 : (getDocumentChunksDb db documentId).isEmpty
      · rw [if_pos h0]
      · rw [if_neg h0]
        have h1 : (chunksToUpdateOf db documentId false).isEmpty = true := by
          rw [chunksToUpdateOf, if_neg (by simp : ¬ false = true), List.isEmpty_iff,
            List.filter_eq_nil_iff]
          intro ch hch
          have := mem_getDocumentChunksDb hch
          simp [hall ch this.1 this.2]
        rw [if_pos h1]
    rw [reprocessDocument]
    simp only [hfind]
    split
    · next hgate => exact absurd hd hgate.1
    · simp only [hupd]
  · have hframe := updateEmbeddingsSvc_frame db p c documentId force hids
    rw [reprocessDocument]
    simp only [hfind]
    by_cases hgate : d.processing_status ≠ .completed ∧ force = false
    · rw [if_pos hgate]
      exact ⟨rfl, forall₂_frame_refl documentId force db.chunks⟩
    · rw [if_neg hgate]
      rcases hu : updateEmbeddingsSvc db p c documentId force with ⟨res, db', c'⟩
      rw [hu] at hframe
      cases res with
      | error e => exact hframe
      | ok r => exact hframe

/-- C9 witness: on a concrete store, reprocessing the completed document
whose only chunk is already embedded is a free no-op, and reprocessing the
pending document without force fails with the status error. -/
theorem reprocessDocument_gate_noop_frame_witness :
    ((dbReproWit.chunks.map ChunkRow.id).Nodup ∧
     dbReproWit.documents.find?
       (fun d0 => decide (d0.id = 1) && decide (d0.user_id = 2)) =
       some ⟨1, 2, [], [], [], [], 0, 0, .completed, 1⟩ ∧
     dbReproWit.documents.find?
       (fun d0 => decide (d0.id = 3) && decide (d0.user_id = 2)) =
       some ⟨3, 2, [], [], [], [], 0, 0, .pending, 0⟩) ∧
    reprocessDocument dbReproWit providerAlwaysFail 0 1 2 false =
      (.ok ⟨true, 0, 0⟩, dbReproWit, 0) ∧
    reprocessDocument dbReproWit providerAlwaysFail 0 3 2 false =
      (.error "Document must be in completed status to reprocess", dbReproWit, 0) :=
  ⟨⟨by decide, rfl, rfl⟩,
   (reprocessDocument_gate_noop_frame dbReproWit providerAlwaysFail 0 1 2 false
     ⟨1, 2, [], [], [], [], 0, 0, .completed, 1⟩ (by decide) rfl).2.1 rfl (by decide),
   (reprocessDocument_gate_noop_frame dbReproWit providerAlwaysFail 0 3 2 false
     ⟨3, 2, [], [], [], [], 0, 0, .pending, 0⟩ (by decide) rfl).1 (by decide) rfl⟩

/-- C10: an all-whitespace input makes chunkText return no chunks, under
every combination of options; turning zero chunks into a failure happens
later, in processDocument, which reports the could-not-be-chunked error for
any content whose chunking is empty. -/
theorem chunkText_blank_and_zero_chunk_failure
    (text : List Char) (opts : ChunkOptions)
    (hws : ∀ ch ∈ text, jsWs ch = true)
    (env : PipelineEnv) (db : DB) (c : ℕ) (filePath originalName : List Char)
    (userId : ℕ) (mimeType : List Char) (fileSize : ℕ) (title : Option (List Char))
    (popts : DocumentProcessingOptions) (content : List Char)
    (hnodup : findDocumentByHash db (env.hashAt filePath) userId = none)
    (hext : env.extractAt filePath mimeType = .ok content)
    (hcontent : (jsTrim content).length ≠ 0)
    (hchunks : chunkText content (mergeChunkOpts popts.chunkOptions) = []) :
    chunkText text opts = []
    ∧ (processDocument env db c filePath originalName userId mimeType fileSize title
        popts).1.success = false
    ∧ (processDocument env db c filePath originalName userId mimeType fileSize title
        popts).1.error = some "Document could not be chunked - content may be too short" := by
  have htext : (jsTrim text).length = 0 := by
    have : text.dropWhile jsWs = [] := List.dropWhile_eq_nil_iff.mpr hws
    rw [jsTrim, this]
    rfl
  refine ⟨?_, ?_, ?_⟩
  · rw [chunkText, if_pos htext]
  all_goals
    simp only [processDocument, hnodup, hext, hchunks, failResult]
    simp [hcontent, hchunks, failResult]

/-- C10 witness: two whitespace characters chunk to nothing, and a pipeline
run over three letters of extracted content (below the default minimum
chunk size, so chunked to nothing) fails with the too-short message. -/
theorem chunkText_blank_and_zero_chunk_failure_witness :
    ((∀ ch ∈ [' ', '\t'], jsWs ch = true) ∧
     findDocumentByHash dbEmpty (envC10.hashAt ['f']) 7 = none ∧
     envC10.extractAt ['f'] ['m'] = .ok ['a', 'b', 'c'] ∧
     (jsTrim ['a', 'b', 'c']).length ≠ 0 ∧
     chunkText ['a', 'b', 'c']
       (mergeChunkOpts ({} : DocumentProcessingOptions).chunkOptions) = []) ∧
    (chunkText [' ', '\t'] {} = []
     ∧ (processDocument envC10 dbEmpty 0 ['f'] ['f'] 7 ['m'] 1 none {}).1.success = false
     ∧ (processDocument envC10 dbEmpty 0 ['f'] ['f'] 7 ['m'] 1 none {}).1.error =
         some "Document could not be chunked - content may be too short") :=
  ⟨⟨by decide, rfl, rfl, by decide, by decide⟩,
   chunkText_blank_and_zero_chunk_failure [' ', '\t'] {} (by decide) envC10 dbEmpty 0
     ['f'] ['f'] 7 ['m'] 1 none {} ['a', 'b', 'c'] rfl rfl (by decide) (by decide)⟩

/-- C8 counterexample: with the default minimum chunk size of one hundred,
the eight-character text made of three short sentences produces no chunk at
all, not a single chunk holding the three sentences: the whole text is a
trailing fragment below minChunkSize and is dropped. -/
theorem chunkText_abc_counterexample :
    chunkText ("A. B. C.").toList
      { maxChunkSize := some 1000, preserveSentences := some true } = [] ∧
    ¬ (chunkText ("A. B. C.").toList
      { maxChunkSize := some 1000, preserveSentences := some true }).length = 1 := by
  constructor
  · decide
  · decide

/-- C8 amended: once minChunkSize is set at or below the text length (here
eight), the same call returns exactly one chunk whose content is the whole
three-sentence text. -/
theorem chunkText_abc_amended :
    (chunkText ("A. B. C.").toList
      { maxChunkSize := some 1000, preserveSentences := some true,
        minChunkSize := some 8 }).map TextChunk.content = [("A. B. C.").toList] := by
  decide

/-- C7 counterexample: the per-token rate is one constant, not a table keyed
by the model; a model name unknown to the service still produces the
constant nonzero rate, both in generateEmbeddings and in estimateCost, so
the cost for an unknown model is not zero. -/
theorem cost_not_model_keyed_counterexample :
    "mystery-model-9000" ∉ getAvailableModels ∧
    (generateEmbeddings [⟨"hi".toList, 0⟩] ⟨none, some "mystery-model-9000", none, none⟩
      (fun _ _ _ => .ok ⟨[[1]], 1000⟩) 0).1 =
      .ok ⟨mkEmbeddings ⟨[[1]], 1000⟩ (validateChunks [⟨"hi".toList, 0⟩]), 1000,
        calculateCost 1000⟩ ∧
    calculateCost 1000 ≠ 0 ∧
    (estimateCost ["hi".toList]).2 ≠ 0 := by
  refine ⟨by decide, rfl, ?_, ?_⟩
  · rw [calculateCost, costPerToken]
    norm_num
  · show calculateCost 1 ≠ 0
    rw [calculateCost, costPerToken]
    norm_num

/-- C7 amended: cost is tokens times the single constant per-token rate,
independent of the model: every successful generateEmbeddings result
carries cost equal to its total token count times costPerToken, and the
offline estimate is its estimated token count times costPerToken. -/
theorem generateEmbeddings_cost_amended {chunksIn : List ChunkIn}
    {opts : EmbeddingOptions} {p : Provider} {c : ℕ} {r : BatchEmbeddingResult}
    (h : (generateEmbeddings chunksIn opts p c).1 = .ok r) :
    r.cost = r.totalTokens * costPerToken ∧
    ∀ cs : List (List Char), (estimateCost cs).2 = (estimateCost cs).1 * costPerToken := by
  refine ⟨?_, fun cs => rfl⟩
  simp only [generateEmbeddings] at h
  split at h
  · exact absurd h (by simp)
  · split at h
    · exact absurd h (by simp)
    · rw [← Except.ok.inj h]
      rfl

/-- C7 amended witness: a successful one-chunk call with seven total tokens
has cost seven times the constant rate. -/
theorem generateEmbeddings_cost_amended_witness :
    (generateEmbeddings [⟨"hi".toList, 0⟩] {} providerOkThenFail 0).1 =
      .ok batchResWit ∧
    batchResWit.cost = batchResWit.totalTokens * costPerToken ∧
    ∀ cs : List (List Char), (estimateCost cs).2 = (estimateCost cs).1 * costPerToken :=
  ⟨rfl,
   (generateEmbeddings_cost_amended
     (show (generateEmbeddings [⟨"hi".toList, 0⟩] {} providerOkThenFail 0).1 =
       .ok batchResWit from rfl)).1,
   (generateEmbeddings_cost_amended
     (show (generateEmbeddings [⟨"hi".toList, 0⟩] {} providerOkThenFail 0).1 =
       .ok batchResWit from rfl)).2⟩

/-- C2: semanticSearch results obey the limit and the ordering, but the
returned score is the four-decimal rounding of the similarity: the result
list is no longer than the limit, every result arises from a joined row
whose pre-rounding similarity is at least the threshold and whose reported
score is that similarity rounded (hence above threshold minus one
half of one ten-thousandth), and reported scores are non-increasing. -/
theorem semanticSearch_amended_spec (db : DB) (userId : ℕ) (dist : ChunkRow → ℚ)
    (opts : SearchOptions) :
    (semanticSearchModel db userId dist opts).length ≤ opts.limit.getD 10 ∧
    (∀ r ∈ semanticSearchModel db userId dist opts,
      ∃ cd ∈ joinRows db,
        r.similarity_score = round4 (1 - dist cd.1) ∧
        opts.similarity_threshold.getD (7 / 10) ≤ 1 - dist cd.1 ∧
        opts.similarity_threshold.getD (7 / 10) - 1 / 20000 < r.similarity_score) ∧
    (semanticSearchModel db userId dist opts).Pairwise
      (fun a b => b.similarity_score ≤ a.similarity_score) := by
  refine ⟨?_, ?_, ?_⟩
  · simp only [semanticSearchModel, List.length_map]
    exact List.length_take_le _ _
  · intro r hr
    simp only [semanticSearchModel, List.mem_map] at hr
    obtain ⟨cd, hcd, hr_eq⟩ := hr
    have hcd2 := List.mem_of_mem_take hcd
    have hcd3 := (mem_sortByB _ _ _).mp hcd2
    rw [List.mem_filter] at hcd3
    obtain ⟨hmem, hpred⟩ := hcd3
    simp only [Bool.and_eq_true, decide_eq_true_eq] at hpred
    obtain ⟨⟨⟨⟨⟨hu, hs⟩, he⟩, hf⟩, hx⟩, ht⟩ := hpred
    refine ⟨cd, hmem, ?_, ht, ?_⟩
    · rw [← hr_eq]
      rfl
    · rw [← hr_eq]
      show opts.similarity_threshold.getD (7 / 10) - 1 / 20000 < round4 (1 - dist cd.1)
      calc opts.similarity_threshold.getD (7 / 10) - 1 / 20000
          ≤ (1 - dist cd.1) - 1 / 20000 := by linarith
      _ < round4 (1 - dist cd.1) := round4_lt _
  · simp only [semanticSearchModel]
    have hpw : (List.take (opts.limit.getD 10)
        (sortByB (fun (a b : ChunkRow × Doc) => decide (dist a.1 ≤ dist b.1))
          (List.filter (fun cd =>
            decide (cd.2.user_id = userId) &&
            decide (cd.2.processing_status = .completed) &&
            (cd.1.embedding).isSome &&
            docIdFilter opts.filter_document_ids cd.1.document_id &&
            docIdExclude opts.exclude_document_ids cd.1.document_id &&
            decide (opts.similarity_threshold.getD (7 / 10) ≤ 1 - dist cd.1))
            (joinRows db)))).Pairwise
        (fun a b => decide (dist a.1 ≤ dist b.1) = true) := by
      apply List.Pairwise.sublist (List.take_sublist _ _)
      apply pairwise_sortByB
      · intro a b
        rcases le_total (dist a.1) (dist b.1) with h | h
        · exact Or.inl (decide_eq_true h)
        · exact Or.inr (decide_eq_true h)
      · intro a b c hab hbc
        exact decide_eq_true (le_trans (of_decide_eq_true hab) (of_decide_eq_true hbc))
    exact List.Pairwise.map _
      (fun a b hab => round4_mono
        (show (1 : ℚ) - dist b.1 ≤ 1 - dist a.1 by
          linarith [of_decide_eq_true hab])) hpw

/-- C2 counterexample: a stored chunk at distance 14999 over 50000 from the
query meets the threshold 35001 over 50000 exactly, yet the returned score
is its rounding seven tenths, strictly below the requested threshold, so
returned scores are not always at least the threshold. -/
theorem semanticSearch_rounding_counterexample :
    (semanticSearchModel dbC2 1 (fun _ => 14999 / 50000)
      ⟨none, some (35001 / 50000), none, none, none⟩).map SearchResult.similarity_score =
      [7 / 10] ∧
    ¬ ((35001 : ℚ) / 50000 ≤ 7 / 10) := by
  constructor
  · have hjoin : joinRows dbC2 = [(chC2, docC2)] := rfl
    have hth : ((35001 : ℚ) / 50000) ≤ 1 - 14999 / 50000 := by norm_num
    have hfl : ⌊((1 : ℚ) - 14999 / 50000) * 10000 + 1 / 2⌋ = 7000 := by
      rw [Int.floor_eq_iff]
      constructor <;> norm_num
    simp only [semanticSearchModel, hjoin, Option.getD_none, Option.getD_some]
    simp [docC2, chC2, docIdFilter, docIdExclude, hth, sortByB, insertSorted,
      formatSearchResult, mkSearchResult, round4, hfl]
    norm_num [hfl]
  · norm_num

/-- C3: with keyword weight zero and semantic weight one and the same
explicit threshold and limit, hybridSearch returns exactly the
semanticSearch results, in the same order. -/
theorem hybridSearch_kw0_sw1_eq_semanticSearch (db : DB) (userId : ℕ)
    (dist : ChunkRow → ℚ) (tsrank : ChunkRow → Option ℚ) (t : ℚ) (lim : ℕ)
    (im : Option Bool) (fids eids : Option (List ℕ)) :
    hybridSearchModel db userId dist tsrank
      ⟨⟨some lim, some t, im, fids, eids⟩, some 0, some 1, none⟩ =
      semanticSearchModel db userId dist ⟨some lim, some t, im, fids, eids⟩ := by
  have hb : ∀ a b c d e f : Bool,
      ((f && d && e) && (a && b && c)) = (a && b && c && d && e && f) := by decide
  have hblend : ∀ x : ChunkRow, blendedScore dist tsrank 1 0 (6 / 5) x = 1 - dist x := by
    intro x
    rw [blendedScore]
    rcases tsrank x with _ | r2 <;> ring
  simp only [hybridSearchModel, semanticSearchModel, Option.getD_some, Option.getD_none]
  rw [List.filter_filter]
  have hpred : (fun (cd : ChunkRow × Doc) =>
      (decide (t ≤ 1 - dist cd.1) && docIdFilter fids cd.1.document_id &&
        docIdExclude eids cd.1.document_id) &&
      (decide (cd.2.user_id = userId) && decide (cd.2.processing_status = .completed) &&
        (cd.1.embedding).isSome)) = (fun cd =>
      decide (cd.2.user_id = userId) && decide (cd.2.processing_status = .completed) &&
        (cd.1.embedding).isSome && docIdFilter fids cd.1.document_id &&
        docIdExclude eids cd.1.document_id && decide (t ≤ 1 - dist cd.1)) := by
    funext cd
    exact hb _ _ _ _ _ _
  rw [hpred]
  have hrel : (fun (a b : ChunkRow × Doc) =>
      decide (blendedScore dist tsrank 1 0 (6 / 5) b.1 ≤
        blendedScore dist tsrank 1 0 (6 / 5) a.1)) =
      (fun a b => decide (dist a.1 ≤ dist b.1)) := by
    funext a b
    apply decide_eq_decide.mpr
    rw [hblend, hblend]
    exact sub_le_sub_iff_left 1
  rw [hrel]
  have hmap : (fun (cd : ChunkRow × Doc) => formatSearchResult
      (mkSearchResult cd (im.getD true) (blendedScore dist tsrank 1 0 (6 / 5) cd.1))) =
      (fun cd => formatSearchResult (mkSearchResult cd (im.getD true) (1 - dist cd.1))) := by
    funext cd
    rw [hblend]
  rw [hmap]

end ThinkPod
